import Mathlib

/-!
Shallow embedding of the revenue-exposure allocation engine
(`geo-exposure-map/lib/exposure-core.ts`).

Conventions of the embedding:
* JS numbers occurring in data are modelled as exact rationals (`ℚ`); the
  composite score, which uses fractional powers (`Math.pow`), lives in `ℝ`
  with `Real.rpow`.
* A JS `Map` with string keys (and a plain object used as a dictionary) is
  modelled as an association list `SMap` with JS semantics: `set` overwrites
  in place keeping insertion order, `get` returns the stored value, and
  `Object.values` is the list of stored values in insertion order.
* `null` / `undefined` / absent values are `Option.none`.  `Number(x)`
  applied to a non-numeric date (producing `NaN`, which `Number.isFinite`
  rejects) is modelled as `none` in the `date` field.
-/

namespace GeoExposure

/-- The three revenue segments of the engine. -/
inductive Seg where
  | AMERICAS
  | EMEA
  | APAC
  deriving DecidableEq, Repr

/-- Association-list model of a string-keyed JS `Map` / dictionary object. -/
abbrev SMap (α : Type) : Type := List (String × α)

namespace SMap

/-- JS `map.get(k)` / `obj[k]`: value of the first (in a map built by `set`,
the unique) entry with key `k`. -/
def get (m : SMap α) (k : String) : Option α :=
  match m with
  | [] => none
  | p :: t => if p.1 = k then some p.2 else get t k

/-- JS `map.set(k, v)` / `obj[k] = v`: overwrite the entry in place keeping
its position, else append a new entry at the end. -/
def set (m : SMap α) (k : String) (v : α) : SMap α :=
  match m with
  | [] => [(k, v)]
  | p :: t => if p.1 = k then (k, v) :: t else p :: set t k v

/-- Keys of the map, in insertion order. -/
def keys (m : SMap α) : List String := m.map (·.1)

/-- Values of the map, in insertion order (JS `Object.values`). -/
def values (m : SMap α) : List α := m.map (·.2)

end SMap

/-- Character-list version of JS `String.prototype.trim`, dropping leading
whitespace. -/
def trimLeft : List Char → List Char
  | [] => []
  | c :: cs => if c.isWhitespace then trimLeft cs else c :: cs

/-- JS `s.trim()` over the character list of `s`. -/
def jsTrim (s : String) : String :=
  String.mk (trimLeft (trimLeft s.data.reverse).reverse)

/-- JS `s.toUpperCase()` (per-character uppercase). -/
def jsToUpper (s : String) : String := String.mk (s.data.map Char.toUpper)

/-- JS `s.toLowerCase()` (per-character lowercase). -/
def jsToLower (s : String) : String := String.mk (s.data.map Char.toLower)

/-- JS `s.split("\n")`: splitting a character list at newline characters. -/
def splitNlAux (cur : List Char) : List Char → List (List Char)
  | [] => [cur]
  | c :: cs =>
    if c = '\n' then cur :: splitNlAux [] cs
    else splitNlAux (cur ++ [c]) cs

/-- JS `s.split("\n")` as a list of lines. -/
def jsSplitLines (s : String) : List String :=
  (splitNlAux [] s.data).map (fun cs => String.mk cs)

/-- JS `header.indexOf(name)`: index of the first occurrence, `-1` if absent. -/
def jsIndexOf (l : List String) (x : String) : Int :=
  match l.findIdx? (fun s => s == x) with
  | some n => (n : Int)
  | none => -1

/-- JS `cols[i]` for a possibly negative or out-of-range index. -/
def getCol (cols : List String) (i : Int) : Option String :=
  if i < 0 then none else cols.get? i.toNat

/-!  Transcription of `splitCsvLine` (exposure-core.ts, lines 98-116).

The character loop carries the output fields `out`, the current field `cur`
and the in-quotes flag `inQ`; the lookahead `line[i + 1] === '"'` becomes a
pattern match on the next character of the remaining input. -/

/-- State-passing loop body of `splitCsvLine`.  When the loop sees `"` while
inside quotes and the lookahead is not a second `"`, the source toggles
`inQ` off and lets the next iteration handle the lookahead character; that
next iteration (with `inQ = false` and the character known not to be `"`)
is inlined here so that every recursive call consumes the list structurally. -/
def splitCsvAux (inQ : Bool) (out : List (List Char)) (cur : List Char) :
    List Char → List (List Char)
  | [] => out ++ [cur]
  | c :: rest =>
    if c = '"' then
      if inQ then
        match rest with
        | c2 :: rest2 =>
          if c2 = '"' then splitCsvAux true out (cur ++ [c2]) rest2
          else if c2 = ',' then splitCsvAux false (out ++ [cur]) [] rest2
          else splitCsvAux false out (cur ++ [c2]) rest2
        | [] => out ++ [cur]
      else splitCsvAux true out cur rest
    else if c = ',' && !inQ then
      splitCsvAux inQ (out ++ [cur]) [] rest
    else
      splitCsvAux inQ out (cur ++ [c]) rest

/-- CSV line splitter of the source: standard CSV quoting, a doubled quote
inside a quoted field is one literal quote character. -/
def splitCsvLine (line : String) : List String :=
  (splitCsvAux false [] [] line.data).map (fun cs => String.mk cs)

/-- Ascending sort of a list of rationals, the effect of the JS numeric
sort `arr.sort((x, y) => x - y)` in `median`. -/
def sortAsc (l : List ℚ) : List ℚ := l.insertionSort (· ≤ ·)

/-- Transcription of `median` (exposure-core.ts, lines 118-123).  The JS
source first filters with `Number.isFinite`; every `ℚ` is finite, so that
filter is the identity here.  Empty input gives `null` (`none`). -/
def median (arr : List ℚ) : Option ℚ :=
  let a := sortAsc arr
  if a.length = 0 then none
  else
    let mid := a.length / 2
    if a.length % 2 = 1 then some (a.getD mid 0)
    else some ((a.getD (mid - 1) 0 + a.getD mid 0) / 2)

/-- The result of applying JavaScript `Number(...)` to a non-nullish feed
value: a finite number, `NaN` (e.g. `Number("abc")`), or an infinity (e.g.
`JSON.parse("1e999")`).  `Number("")` is the finite number `0`. -/
inductive JsVal where
  | num : ℚ → JsVal
  | nan : JsVal
  | inf : JsVal
  | negInf : JsVal
  deriving DecidableEq, Repr

/-- A World Bank observation row (type `WorldBankDatum` of the source),
parametrised by the value domain `V`.  `date` is the result of
`Number(it.date)` when finite, `none` when the date is missing or
non-numeric (`NaN`); `value` is `none` for `null` / missing / `undefined`,
and otherwise the `Number(...)` coercion of the stored value.
`latestByIso3` never inspects the numeric value beyond the `== null` test,
so it is uniform in `V`.  The general feed is `WBDatum JsVal`; the scoring
pipeline consumes feeds of declared type `number | null` whose JSON numbers
are finite, i.e. `WBDatum ℚ`. -/
structure WBDatum (V : Type) where
  countryiso3code : Option String
  date : Option ℚ
  value : Option V
  deriving DecidableEq

/-- Loop body of `latestByIso3` (exposure-core.ts, lines 125-137), applied
to the observation rows (`wbJson[1]`): keep, per country code, the
observation with the strictly greatest year seen so far, skipping rows with
a falsy country code, a non-finite year, or a nullish value. -/
def latestStep {V : Type} (best : SMap (ℚ × V)) (it : WBDatum V) : SMap (ℚ × V) :=
  match it.countryiso3code, it.date, it.value with
  | some iso3, some year, some val =>
    if iso3 = "" then best
    else
      match SMap.get best iso3 with
      | none => SMap.set best iso3 (year, val)
      | some prev => if year > prev.1 then SMap.set best iso3 (year, val) else best
  | _, _, _ => best

/-- The full reduction `latestByIso3`, a left fold of `latestStep` over the
observation rows starting from the empty map. -/
def latestByIso3 {V : Type} (rows : List (WBDatum V)) : SMap (ℚ × V) :=
  rows.foldl latestStep []

/-- Transcription of `segmentOfCountry` (exposure-core.ts, lines 139-149).
`region` / `subRegion` are `string | null` in the source. -/
def segmentOfCountry (region : Option String) (subRegion : Option String) : Option Seg :=
  if region = some "Americas" then some .AMERICAS
  else if region = some "Europe" then some .EMEA
  else if region = some "Africa" then some .EMEA
  else if region = some "Asia" then
    if subRegion = some "Western Asia" then some .EMEA else some .APAC
  else if region = some "Oceania" then some .APAC
  else none

/-- Transcription of `clamp` (exposure-core.ts, lines 151-153). -/
def clamp (x lo hi : ℚ) : ℚ := max lo (min hi x)

/-- FY2025 segment revenue anchors in USD millions (`SEGMENT_REVENUE_USD_M`). -/
def SEGMENT_REVENUE_USD_M (s : Seg) : ℚ :=
  match s with
  | .AMERICAS => 1506108 / 1000
  | .EMEA => 580284 / 1000
  | .APAC => 235356 / 1000

/-- Hub multiplier table (`HUB_MULT`). -/
def HUB_MULT : SMap ℚ :=
  [("USA", 1.3), ("GBR", 1.3), ("CHE", 1.3), ("LUX", 1.3), ("SGP", 1.3),
   ("HKG", 1.3), ("ARE", 1.25), ("IRL", 1.2), ("NLD", 1.2), ("FRA", 1.15),
   ("DEU", 1.15), ("JPN", 1.15), ("AUS", 1.15), ("CAN", 1.15)]

/-- Disclosed-office country set (`OFFICE_COUNTRIES`). -/
def OFFICE_COUNTRIES : List String :=
  ["USA", "BRA", "CAN",
   "BGR", "GBR", "FRA", "DEU", "ITA", "LVA", "LUX", "NLD", "SWE", "ARE",
   "AUS", "CHN", "HKG", "IND", "JPN", "PHL", "SGP"]

/-- Office-presence multiplier (`OFFICE_MULT`). -/
def OFFICE_MULT : ℚ := 1.15

/-- Comprehensive-sanctions near-zero set (`NEAR_ZERO`). -/
def NEAR_ZERO : List String := ["CUB", "IRN", "PRK", "RUS"]

/-- Near-zero multiplier (`NEAR_ZERO_MULT`). -/
def NEAR_ZERO_MULT : ℚ := 0.01

/-- A parsed taxonomy record (the element type of `countries` in
`buildExposureData`); `seg` is derived by `segmentOfCountry`. -/
structure TaxCountry where
  iso3 : String
  alpha2 : Option String
  name : String
  region : Option String
  subRegion : Option String
  seg : Option Seg
  deriving DecidableEq

/-- Parse of one CSV data row of the taxonomy (exposure-core.ts, lines
173-185).  Rows with a falsy (missing or empty) iso3 or name are dropped;
an empty alpha-2 becomes `null` via `|| null`. -/
def parseRow (header : List String) (cols : List String) : Option TaxCountry :=
  let iso3? := (getCol cols (jsIndexOf header "alpha-3")).map (fun s => jsToUpper (jsTrim s))
  let alpha2Idx := jsIndexOf header "alpha-2"
  let alpha2 :=
    if 0 ≤ alpha2Idx then
      match (getCol cols alpha2Idx).map (fun s => jsToUpper (jsTrim s)) with
      | some s => if s = "" then none else some s
      | none => none
    else none
  let name? := (getCol cols (jsIndexOf header "name")).map jsTrim
  let region := (getCol cols (jsIndexOf header "region")).map jsTrim
  let subRegion := (getCol cols (jsIndexOf header "sub-region")).map jsTrim
  match iso3?, name? with
  | some iso3, some name =>
    if iso3 = "" ∨ name = "" then none
    else some { iso3 := iso3, alpha2 := alpha2, name := name, region := region,
                subRegion := subRegion, seg := segmentOfCountry region subRegion }
  | _, _ => none

/-- The pure input of one invocation of `buildExposureData`: the taxonomy
CSV text plus the rows of the six World Bank indicator feeds (the engine's
external retrievals, already unwrapped to the observation arrays). -/
structure Input where
  isoCsv : String
  gdpRows : List (WBDatum ℚ)
  mcapRows : List (WBDatum ℚ)
  creditRows : List (WBDatum ℚ)
  gdppcRows : List (WBDatum ℚ)
  netRows : List (WBDatum ℚ)
  popRows : List (WBDatum ℚ)

/-- Taxonomy parse of `buildExposureData` (lines 160-185): trim the CSV,
split into lines, parse the header, and parse each data row. -/
def countriesOf (inp : Input) : List TaxCountry :=
  match jsSplitLines (jsTrim inp.isoCsv) with
  | [] => []
  | h :: t => t.filterMap (fun line => parseRow (splitCsvLine h) (splitCsvLine line))

/-- The `iso3ToAlpha2` dictionary built during the taxonomy parse. -/
def iso3ToAlpha2Of (cs : List TaxCountry) : SMap String :=
  cs.foldl
    (fun m c =>
      match c.alpha2 with
      | some a => SMap.set m (jsToUpper c.iso3) (jsToUpper a)
      | none => m)
    []

/-- The `countryMap` lookup (`new Map(countries.map(c => [c.iso3, c]))`):
for duplicate keys the last entry wins, as in a JS `Map` constructor. -/
def countryMapGet (cs : List TaxCountry) (k : String) : Option TaxCountry :=
  cs.foldl (fun acc c => if c.iso3 == k then some c else acc) none

/-- Countries of one segment, in taxonomy order
(`countries.filter(x => x.seg === seg)`). -/
def segCountries (cs : List TaxCountry) (seg : Seg) : List TaxCountry :=
  cs.filter (fun c => c.seg == some seg)

/-- Per-segment observed indicator values (the `segVals` arrays, lines
208-224): for the countries of `seg` in taxonomy order, the finite direct
values of one indicator lookup. -/
def segValsOf (cs : List TaxCountry) (m : SMap (ℚ × ℚ)) (seg : Seg) : List ℚ :=
  cs.filterMap
    (fun c => if c.seg = some seg then (SMap.get m c.iso3).map (·.2) else none)

/-- The per-segment fallback medians record (`segMedian`). -/
structure SegMedian where
  mcap : ℚ
  credit : ℚ
  gdppc : ℚ
  net : ℚ
  deriving DecidableEq

/-- Transcription of the `segMedian` computation (lines 226-234): per
segment, the median of the observed values with the literal defaults
30 / 50 / 8000 / 55 when a segment has no observation. -/
def medOf (inp : Input) (seg : Seg) : SegMedian :=
  let cs := countriesOf inp
  { mcap := (median (segValsOf cs (latestByIso3 inp.mcapRows) seg)).getD 30
    credit := (median (segValsOf cs (latestByIso3 inp.creditRows) seg)).getD 50
    gdppc := (median (segValsOf cs (latestByIso3 inp.gdppcRows) seg)).getD 8000
    net := (median (segValsOf cs (latestByIso3 inp.netRows) seg)).getD 55 }

/-- The indicator-resolution step of lines 252-255,
`lookup.get(iso3)?.value ?? fallback`: the optional-chain / nullish
coalescing takes the stored value whenever the lookup has an entry — the
value itself is never inspected — and the fallback exactly when it has
none. -/
def resolveIndicator {V : Type} (m : SMap (ℚ × V)) (iso3 : String) (fallback : V) : V :=
  ((SMap.get m iso3).map (·.2)).getD fallback

/-- Resolved market-cap input of the scoring formula (line 252):
direct latest value, else the segment median. -/
def mpOf (inp : Input) (c : TaxCountry) (seg : Seg) : ℚ :=
  resolveIndicator (latestByIso3 inp.mcapRows) c.iso3 ((medOf inp seg).mcap)

/-- Resolved private-credit input of the scoring formula (line 253). -/
def cpOf (inp : Input) (c : TaxCountry) (seg : Seg) : ℚ :=
  resolveIndicator (latestByIso3 inp.creditRows) c.iso3 ((medOf inp seg).credit)

/-- Resolved GDP-per-capita input of the scoring formula (line 254). -/
def gpOf (inp : Input) (c : TaxCountry) (seg : Seg) : ℚ :=
  resolveIndicator (latestByIso3 inp.gdppcRows) c.iso3 ((medOf inp seg).gdppc)

/-- Resolved internet-penetration input of the scoring formula (line 255). -/
def npOf (inp : Input) (c : TaxCountry) (seg : Seg) : ℚ :=
  resolveIndicator (latestByIso3 inp.netRows) c.iso3 ((medOf inp seg).net)

/-- Composite score of one country (lines 246-268): the negligible `1e-9`
when GDP is missing or `≤ 0`, otherwise the multiplicative formula over the
clamped resolved indicators followed by the hub, office and near-zero
multipliers. -/
noncomputable def scoreOf (inp : Input) (c : TaxCountry) (seg : Seg) : ℝ :=
  match (SMap.get (latestByIso3 inp.gdpRows) c.iso3).map (·.2) with
  | none => 1e-9
  | some g =>
    if g ≤ 0 then 1e-9
    else
      let mcapFactor : ℝ := ((1 + clamp (mpOf inp c seg) 0 400 / 100 : ℚ) : ℝ) ^ (0.9 : ℝ)
      let creditFactor : ℝ := ((1 + clamp (cpOf inp c seg) 0 300 / 100 : ℚ) : ℝ) ^ (0.6 : ℝ)
      let wealthFactor : ℝ := ((1 + clamp (gpOf inp c seg) 0 80000 / 50000 : ℚ) : ℝ) ^ (0.35 : ℝ)
      let internetFactor : ℝ :=
        ((0.2 + clamp (npOf inp c seg) 0 100 / 100 : ℚ) : ℝ) ^ (0.25 : ℝ)
      let s0 : ℝ := ((g : ℚ) : ℝ) ^ (0.7 : ℝ) * mcapFactor * creditFactor * wealthFactor *
        internetFactor
      let s1 : ℝ := s0 * (((SMap.get HUB_MULT c.iso3).getD 1 : ℚ) : ℝ)
      let s2 : ℝ := if OFFICE_COUNTRIES.contains c.iso3 then s1 * (OFFICE_MULT : ℝ) else s1
      if NEAR_ZERO.contains c.iso3 then s2 * (NEAR_ZERO_MULT : ℝ) else s2

/-- The per-segment score maps (`scores`, lines 237-269): one loop over the
taxonomy, storing `scoreOf` under the country's segment, skipping countries
with no segment. -/
noncomputable def scoresOf (inp : Input) : Seg → SMap ℝ :=
  (countriesOf inp).foldl
    (fun acc c =>
      match c.seg with
      | none => acc
      | some seg =>
        fun s => if s = seg then SMap.set (acc seg) c.iso3 (scoreOf inp c seg) else acc s)
    (fun _ => [])

/-- Sum of the values of a score map (`for (const v of map.values()) sum += v`). -/
noncomputable def sumValues (m : SMap ℝ) : ℝ := (m.map (·.2)).sum

/-- One allocation row (lines 271-299). -/
structure AllocRow where
  iso3 : String
  country : String
  segment : Seg
  revenueMillions : ℝ
  office : Bool
  hub : Bool
  nearZero : Bool

/-- Iteration order of `Object.keys(scores)`: declaration order. -/
def segKeysOrder : List Seg := [.AMERICAS, .EMEA, .APAC]

/-- One allocation row of the allocation loop (lines 287-299): the country
receives `anchor × score / scoreSum` (zero share on a degenerate
non-positive sum, `sum > 0 ? s / sum : 0` in the source). -/
noncomputable def allocRowOf (inp : Input) (seg : Seg) (c : TaxCountry) : AllocRow :=
  let m := scoresOf inp seg
  let sum := sumValues m
  let total : ℝ := ((SEGMENT_REVENUE_USD_M seg : ℚ) : ℝ)
  let s : ℝ := (SMap.get m c.iso3).getD 0
  let share : ℝ := if 0 < sum then s / sum else 0
  { iso3 := c.iso3, country := c.name, segment := seg,
    revenueMillions := total * share,
    office := OFFICE_COUNTRIES.contains c.iso3,
    hub := (SMap.get HUB_MULT c.iso3).isSome,
    nearZero := NEAR_ZERO.contains c.iso3 }

/-- Transcription of the allocation loop (lines 281-300): per segment in
declaration order, one row per country of the segment in taxonomy order. -/
noncomputable def allocationsOf (inp : Input) : List AllocRow :=
  segKeysOrder.flatMap
    (fun seg => (segCountries (countriesOf inp) seg).map (allocRowOf inp seg))

/-- Grand total of allocated revenue (line 302). -/
noncomputable def totalRevenueOf (inp : Input) : ℝ :=
  ((allocationsOf inp).map (·.revenueMillions)).sum

/-- One row of the output table `countryDetails`.  The JS `segment` string
is modelled as `Option Seg`, the empty string of the zero-filled pass being
`none`. -/
structure Detail where
  iso3 : String
  name : String
  region : String
  revenueMillions : ℝ
  share : ℝ
  population : Option ℚ
  flagUrl : Option String
  segment : Option Seg
  office : Bool
  hub : Bool
  nearZero : Bool

/-- The alpha-2 fallback chain of the output assembler:
explicit alpha-2, else the parse-time dictionary, else the first two
characters of the iso3 code. -/
def fallbackAlpha2 (a2m : SMap String) (metaAlpha2 : Option String) (iso3 : String) :
    Option String :=
  match metaAlpha2 with
  | some a => some a
  | none =>
    match SMap.get a2m iso3 with
    | some a => some a
    | none => if 2 ≤ iso3.length then some (String.mk (iso3.data.take 2)) else none

/-- Flag-image URL for an optional alpha-2 code. -/
def flagUrlFor (alpha2 : Option String) : Option String :=
  alpha2.map (fun a => "https://flagcdn.com/" ++ jsToLower a ++ ".svg")

/-- First output pass (lines 326-345): the detail record built from an
allocation row. -/
noncomputable def detailOfRow (inp : Input) (row : AllocRow) : Detail :=
  let cs := countriesOf inp
  let meta := countryMapGet cs row.iso3
  let alpha2 := fallbackAlpha2 (iso3ToAlpha2Of cs) (meta.bind (·.alpha2)) row.iso3
  { iso3 := row.iso3
    name := row.country
    region := (meta.bind (·.region)).getD ""
    revenueMillions := row.revenueMillions
    share := if 0 < totalRevenueOf inp then row.revenueMillions / totalRevenueOf inp else 0
    population := (SMap.get (latestByIso3 inp.popRows) row.iso3).map (·.2)
    flagUrl := flagUrlFor alpha2
    segment := some row.segment
    office := row.office
    hub := row.hub
    nearZero := row.nearZero }

/-- Second output pass (lines 348-367): the zero-valued detail record for a
taxonomy country that received no allocation row. -/
noncomputable def zeroDetail (inp : Input) (c : TaxCountry) : Detail :=
  let alpha2 := fallbackAlpha2 (iso3ToAlpha2Of (countriesOf inp)) c.alpha2 c.iso3
  { iso3 := c.iso3
    name := c.name
    region := c.region.getD ""
    revenueMillions := 0
    share := 0
    population := (SMap.get (latestByIso3 inp.popRows) c.iso3).map (·.2)
    flagUrl := flagUrlFor alpha2
    segment := c.seg
    office := OFFICE_COUNTRIES.contains c.iso3
    hub := (SMap.get HUB_MULT c.iso3).isSome
    nearZero := NEAR_ZERO.contains c.iso3 }

/-- First pass of the `countryDetailsMap` dictionary: fill from the
allocation rows. -/
noncomputable def countryDetailsPass1 (inp : Input) : SMap Detail :=
  (allocationsOf inp).foldl (fun m row => SMap.set m row.iso3 (detailOfRow inp row)) []

/-- The `countryDetailsMap` dictionary: first pass fills from allocations,
second pass fills every remaining taxonomy country with a zero record. -/
noncomputable def countryDetailsMapOf (inp : Input) : SMap Detail :=
  (countriesOf inp).foldl
    (fun m c => if (SMap.get m c.iso3).isSome then m else SMap.set m c.iso3 (zeroDetail inp c))
    (countryDetailsPass1 inp)

/-- The output table `countryDetails = Object.values(countryDetailsMap)`. -/
noncomputable def countryDetailsOf (inp : Input) : List Detail :=
  SMap.values (countryDetailsMapOf inp)

/-!  Specification-side observation functions used only in theorem
statements about `latestByIso3`. -/

/-- The qualifying observations of one country code, in input order: rows
with that (truthy) code, a finite year and a non-null value, as
`(year, value)` pairs. -/
def qualObs {V : Type} (rows : List (WBDatum V)) (iso3 : String) : List (ℚ × V) :=
  rows.filterMap
    (fun d =>
      match d.countryiso3code, d.date, d.value with
      | some i, some y, some v => if i = iso3 ∧ i ≠ "" then some (y, v) else none
      | _, _, _ => none)

/-- First element of a list of `(year, value)` pairs whose year is maximal. -/
def firstAtMaxYear {V : Type} (l : List (ℚ × V)) : Option (ℚ × V) :=
  l.find? (fun p => l.all (fun q => q.1 ≤ p.1))

/-- One step of the best-so-far reduction of `latestByIso3`, restricted to a
single country code: a later observation replaces the stored one exactly
when its year is strictly greater. -/
def bestStep {V : Type} (acc : Option (ℚ × V)) (p : ℚ × V) : Option (ℚ × V) :=
  match acc with
  | none => some p
  | some q => if p.1 > q.1 then some p else some q


/-! ### Concrete sample data used by the witness theorems -/

/-- Taxonomy CSV text of the concrete sample input. -/
def sampleCsv : String :=
  "name,alpha-2,alpha-3,region,sub-region\n" ++
  "United States,US,USA,Americas,Northern America\n" ++
  "Albania,AL,ALB,Europe,Southern Europe\n" ++
  "Russia,RU,RUS,Europe,Eastern Europe\n" ++
  "Serbia,RS,SRB,Europe,Southern Europe\n" ++
  "Japan,JP,JPN,Asia,Eastern Asia\n" ++
  "Atlantis,,ATL,,"

/-- GDP feed rows of the concrete sample input. -/
def sampleGdpRows : List (WBDatum ℚ) :=
  [{ countryiso3code := some "USA", date := some 2021, value := some 100 },
   { countryiso3code := some "USA", date := some 2019, value := some 90 },
   { countryiso3code := some "ALB", date := some 2020, value := some 50 },
   { countryiso3code := some "RUS", date := some 2020, value := some 50 }]

/-- Market-cap feed rows of the concrete sample input. -/
def sampleMcapRows : List (WBDatum ℚ) :=
  [{ countryiso3code := some "USA", date := some 2021, value := some 30 },
   { countryiso3code := some "ALB", date := some 2020, value := some 40 },
   { countryiso3code := some "RUS", date := some 2020, value := some 40 },
   { countryiso3code := some "SRB", date := some 2020, value := some 50 }]

/-- A concrete engine input: one country per segment, a near-zero country,
and a country with no segment and no data. -/
def sampleInput : Input :=
  { isoCsv := sampleCsv
    gdpRows := sampleGdpRows
    mcapRows := sampleMcapRows
    creditRows := []
    gdppcRows := []
    netRows := []
    popRows := [] }

/-- The parsed USA record of the sample taxonomy. -/
def usaSample : TaxCountry :=
  { iso3 := "USA", alpha2 := some "US", name := "United States",
    region := some "Americas", subRegion := some "Northern America",
    seg := some .AMERICAS }

/-- The parsed Albania record of the sample taxonomy. -/
def albSample : TaxCountry :=
  { iso3 := "ALB", alpha2 := some "AL", name := "Albania",
    region := some "Europe", subRegion := some "Southern Europe", seg := some .EMEA }

/-- The parsed Russia record of the sample taxonomy. -/
def rusSample : TaxCountry :=
  { iso3 := "RUS", alpha2 := some "RU", name := "Russia",
    region := some "Europe", subRegion := some "Eastern Europe", seg := some .EMEA }

/-- The parsed Japan record of the sample taxonomy. -/
def jpnSample : TaxCountry :=
  { iso3 := "JPN", alpha2 := some "JP", name := "Japan",
    region := some "Asia", subRegion := some "Eastern Asia", seg := some .APAC }

/-! ### Lemmas about the association-list map -/

namespace SMap

variable {α : Type}

theorem get_set_self (m : SMap α) (k : String) (v : α) : get (set m k v) k = some v := by
  induction m with
  | nil => simp [set, get]
  | cons p t ih =>
    by_cases hp : p.1 = k
    · simp [set, get, hp]
    · simp [set, get, hp, ih]

theorem get_set_ne (m : SMap α) (k k2 : String) (v : α) (h : k ≠ k2) :
    get (set m k v) k2 = get m k2 := by
  induction m with
  | nil => simp [set, get, h]
  | cons p t ih =>
    by_cases hp : p.1 = k
    · have : p.1 ≠ k2 := hp ▸ h
      simp [set, get, hp, h, this]
    · simp [set, get, hp, ih]

theorem keys_set (m : SMap α) (k : String) (v : α) :
    keys (set m k v) = if k ∈ keys m then keys m else keys m ++ [k] := by
  induction m with
  | nil => simp [set, keys]
  | cons p t ih =>
    by_cases hp : p.1 = k
    · simp [set, keys, hp]
    · have hne : k ≠ p.1 := fun he => hp he.symm
      have h1 : set (p :: t) k v = p :: set t k v := by simp [set, hp]
      have h2 : keys (p :: set t k v) = p.1 :: keys (set t k v) := rfl
      have h3 : keys (p :: t) = p.1 :: keys t := rfl
      rw [h1, h2, h3, ih]
      by_cases hk : k ∈ keys t
      · simp [hk, List.mem_cons, hne]
      · simp [hk, List.mem_cons, hne]

theorem get_eq_none_iff (m : SMap α) (k : String) : get m k = none ↔ k ∉ keys m := by
  induction m with
  | nil => simp [get, keys]
  | cons p t ih =>
    by_cases hp : p.1 = k
    · simp [get, hp, keys]
    · have : k ≠ p.1 := fun he => hp he.symm
      simp [get, hp, keys, ih, this]

theorem isSome_get_iff (m : SMap α) (k : String) : (get m k).isSome ↔ k ∈ keys m := by
  rcases h : get m k with _ | v
  · simp [h, (get_eq_none_iff m k).1 h]
  · have : k ∈ keys m := by
      by_contra hk
      rw [(get_eq_none_iff m k).2 hk] at h
      exact Option.noConfusion h
    simp [h, this]

theorem get_mem (m : SMap α) (k : String) (v : α) (h : get m k = some v) : (k, v) ∈ m := by
  induction m with
  | nil => simp [get] at h
  | cons p t ih =>
    by_cases hp : p.1 = k
    · rw [List.mem_cons]
      left
      simp only [get, hp, if_pos] at h
      cases p
      simp_all
    · rw [List.mem_cons]
      right
      exact ih (by simpa [get, hp] using h)

theorem get_of_mem_nodup (m : SMap α) (k : String) (v : α)
    (hnd : (keys m).Nodup) (h : (k, v) ∈ m) : get m k = some v := by
  induction m with
  | nil => simp at h
  | cons p t ih =>
    have hnd2 : p.1 ∉ keys t ∧ (keys t).Nodup := by
      have hc : keys (p :: t) = p.1 :: keys t := rfl
      rw [hc] at hnd
      exact List.nodup_cons.1 hnd
    rcases List.mem_cons.1 h with he | ht
    · rw [← he]
      simp [get]
    · have hk : k ∈ keys t := List.mem_map_of_mem _ ht
      have hp : p.1 ≠ k := fun he2 => hnd2.1 (he2 ▸ hk)
      simpa [get, hp] using ih hnd2.2 ht

theorem nodup_keys_set (m : SMap α) (k : String) (v : α) (h : (keys m).Nodup) :
    (keys (set m k v)).Nodup := by
  rw [keys_set]
  by_cases hk : k ∈ keys m
  · simp [hk, h]
  · simp [hk, List.nodup_append, h]

theorem set_eq_append_of_fresh (m : SMap α) (k : String) (v : α) (h : k ∉ keys m) :
    set m k v = m ++ [(k, v)] := by
  induction m with
  | nil => simp [set]
  | cons p t ih =>
    have hh : ¬(k = p.1 ∨ k ∈ keys t) := by
      have hc : keys (p :: t) = p.1 :: keys t := rfl
      rw [hc, List.mem_cons] at h
      exact h
    push_neg at hh
    have hp : ¬p.1 = k := fun he => hh.1 he.symm
    simp [set, hp, ih hh.2]

end SMap

/-! ### Lemmas about folds that build maps -/

theorem get_foldl_set {α β : Type} (key : β → String) (f : β → α) (l : List β)
    (m : SMap α) (k : String) :
    SMap.get (l.foldl (fun acc b => SMap.set acc (key b) (f b)) m) k =
      match l.reverse.find? (fun b => key b == k) with
      | some b => some (f b)
      | none => SMap.get m k := by
  induction l generalizing m with
  | nil => simp
  | cons b t ih =>
    simp only [List.foldl_cons, List.reverse_cons, List.find?_append]
    rw [ih]
    cases hf : t.reverse.find? (fun b => key b == k) with
    | some b2 => simp [hf, Option.or]
    | none =>
      by_cases hk : key b = k
      · simp only [hf, List.find?_singleton, hk, beq_self_eq_true, if_true, Option.or]
        subst hk
        exact SMap.get_set_self m (key b) (f b)
      · have hb : (key b == k) = false := beq_eq_false_iff_ne.2 hk
        simp only [hf, List.find?_singleton, hb, Bool.false_eq_true, if_false, Option.or]
        exact SMap.get_set_ne m (key b) k (f b) hk

theorem mem_keys_foldl_set {α β : Type} (key : β → String) (f : β → α) (l : List β)
    (m : SMap α) (k : String) :
    k ∈ SMap.keys (l.foldl (fun acc b => SMap.set acc (key b) (f b)) m) ↔
      k ∈ SMap.keys m ∨ k ∈ l.map key := by
  induction l generalizing m with
  | nil => simp
  | cons b t ih =>
    simp only [List.foldl_cons, List.map_cons, List.mem_cons]
    rw [ih, SMap.keys_set]
    by_cases hb : key b ∈ SMap.keys m
    · simp only [hb, if_true]
      constructor
      · rintro (h | h)
        · exact Or.inl h
        · exact Or.inr (Or.inr h)
      · rintro (h | h | h)
        · exact Or.inl h
        · exact Or.inl (h ▸ hb)
        · exact Or.inr h
    · simp only [hb, if_false, List.mem_append, List.mem_singleton]
      tauto

theorem nodup_keys_foldl_set {α β : Type} (key : β → String) (f : β → α) (l : List β)
    (m : SMap α) (h : (SMap.keys m).Nodup) :
    (SMap.keys (l.foldl (fun acc b => SMap.set acc (key b) (f b)) m)).Nodup := by
  induction l generalizing m with
  | nil => exact h
  | cons b t ih => exact ih _ (SMap.nodup_keys_set _ _ _ h)

theorem values_foldl_set_fresh {α β : Type} (key : β → String) (f : β → α) (l : List β)
    (m : SMap α) (h : ∀ b ∈ l, key b ∉ SMap.keys m) (hnd : (l.map key).Nodup) :
    SMap.values (l.foldl (fun acc b => SMap.set acc (key b) (f b)) m) =
      SMap.values m ++ l.map f := by
  induction l generalizing m with
  | nil => simp
  | cons b t ih =>
    simp only [List.foldl_cons]
    rw [SMap.set_eq_append_of_fresh m (key b) (f b) (h b (List.mem_cons_self b t))]
    have hnd2 : key b ∉ List.map key t ∧ (List.map key t).Nodup := by
      rw [List.map_cons] at hnd
      exact List.nodup_cons.1 hnd
    rw [ih]
    · simp [SMap.values]
    · intro b2 hb2
      have h1 : key b2 ∉ SMap.keys m := h b2 (List.mem_cons_of_mem _ hb2)
      have h2 : key b2 ≠ key b := fun he => hnd2.1 (he ▸ List.mem_map_of_mem key hb2)
      have hkeys : SMap.keys (m ++ [(key b, f b)]) = SMap.keys m ++ [key b] := by
        simp [SMap.keys]
      rw [hkeys, List.mem_append]
      rintro (hmem | hmem)
      · exact h1 hmem
      · simp at hmem
        exact h2 hmem
    · exact hnd2.2

theorem get_foldl_condSet {α β : Type} (key : β → String) (z : β → α) (l : List β)
    (m : SMap α) (k : String) :
    SMap.get
        (l.foldl
          (fun acc b =>
            if (SMap.get acc (key b)).isSome then acc else SMap.set acc (key b) (z b)) m) k =
      match SMap.get m k with
      | some d => some d
      | none => (l.find? (fun b => key b == k)).map z := by
  induction l generalizing m with
  | nil => cases h : SMap.get m k <;> simp [h]
  | cons b t ih =>
    rw [List.foldl_cons]
    by_cases hs : (SMap.get m (key b)).isSome
    · rw [if_pos hs, ih]
      cases hmk : SMap.get m k with
      | some d => simp [hmk]
      | none =>
        have hne : key b ≠ k := by
          intro he
          rw [he, hmk] at hs
          simp at hs
        have hb : (key b == k) = false := beq_eq_false_iff_ne.2 hne
        simp [hmk, List.find?_cons, hb]
    · rw [if_neg hs, ih]
      by_cases hk : key b = k
      · subst hk
        have hmk : SMap.get m (key b) = none := Option.not_isSome_iff_eq_none.1 hs
        rw [SMap.get_set_self, hmk]
        simp [List.find?_cons]
      · rw [SMap.get_set_ne m (key b) k (z b) hk]
        have hb : (key b == k) = false := beq_eq_false_iff_ne.2 hk
        cases hmk : SMap.get m k with
        | some d => simp [hmk]
        | none => simp [hmk, List.find?_cons, hb]

theorem mem_keys_foldl_condSet {α β : Type} (key : β → String) (z : β → α) (l : List β)
    (m : SMap α) (k : String) :
    k ∈ SMap.keys
        (l.foldl
          (fun acc b =>
            if (SMap.get acc (key b)).isSome then acc else SMap.set acc (key b) (z b)) m) ↔
      k ∈ SMap.keys m ∨ k ∈ l.map key := by
  induction l generalizing m with
  | nil => simp
  | cons b t ih =>
    rw [List.foldl_cons, List.map_cons, List.mem_cons]
    by_cases hs : (SMap.get m (key b)).isSome
    · rw [if_pos hs, ih]
      have hb : key b ∈ SMap.keys m := (SMap.isSome_get_iff m (key b)).1 hs
      constructor
      · rintro (h | h)
        · exact Or.inl h
        · exact Or.inr (Or.inr h)
      · rintro (h | h | h)
        · exact Or.inl h
        · exact Or.inl (h ▸ hb)
        · exact Or.inr h
    · rw [if_neg hs, ih, SMap.keys_set]
      have hb : key b ∉ SMap.keys m := fun hmem => hs ((SMap.isSome_get_iff m (key b)).2 hmem)
      simp only [hb, if_false, List.mem_append, List.mem_singleton]
      tauto

theorem nodup_keys_foldl_condSet {α β : Type} (key : β → String) (z : β → α) (l : List β)
    (m : SMap α) (h : (SMap.keys m).Nodup) :
    (SMap.keys
        (l.foldl
          (fun acc b =>
            if (SMap.get acc (key b)).isSome then acc
            else SMap.set acc (key b) (z b)) m)).Nodup := by
  induction l generalizing m with
  | nil => exact h
  | cons b t ih =>
    rw [List.foldl_cons]
    by_cases hs : (SMap.get m (key b)).isSome
    · rw [if_pos hs]
      exact ih _ h
    · rw [if_neg hs]
      exact ih _ (SMap.nodup_keys_set _ _ _ h)

theorem set_entry_pred {α : Type} (P : String → α → Prop) (m : SMap α) (k : String) (v : α)
    (hm : ∀ p ∈ m, P p.1 p.2) (hv : P k v) : ∀ p ∈ SMap.set m k v, P p.1 p.2 := by
  induction m with
  | nil =>
    intro p hp
    simp [SMap.set] at hp
    simp [hp, hv]
  | cons q t ih =>
    intro p hp
    by_cases hq : q.1 = k
    · simp only [SMap.set, hq, if_pos] at hp
      rcases List.mem_cons.1 hp with rfl | hpt
      · exact hv
      · exact hm p (List.mem_cons_of_mem _ hpt)
    · simp only [SMap.set, hq, if_neg, not_false_iff] at hp
      rcases List.mem_cons.1 hp with rfl | hpt
      · exact hm p (List.mem_cons_self _ _)
      · exact ih (fun r hr => hm r (List.mem_cons_of_mem _ hr)) p hpt

/-! ### Lemmas about the latest-observation reduction -/

theorem find?_congr_mem {β : Type} (l : List β) (p q : β → Bool)
    (h : ∀ x ∈ l, p x = q x) : l.find? p = l.find? q := by
  induction l with
  | nil => rfl
  | cons b t ih =>
    rw [List.find?_cons, List.find?_cons, h b (List.mem_cons_self b t)]
    cases q b
    · exact ih fun x hx => h x (List.mem_cons_of_mem _ hx)
    · rfl

theorem all_le_iff {V : Type} (l : List (ℚ × V)) (x : ℚ × V) :
    (l.all (fun q => decide (q.1 ≤ x.1)) = true) ↔ ∀ q ∈ l, q.1 ≤ x.1 := by
  simp [List.all_eq_true]

theorem foldl_bestStep_some {V : Type} (l : List (ℚ × V)) (a : ℚ × V) :
    ∃ b, l.foldl bestStep (some a) = some b ∧ b ∈ a :: l ∧ ∀ q ∈ a :: l, q.1 ≤ b.1 := by
  induction l generalizing a with
  | nil => exact ⟨a, rfl, by simp, by simp⟩
  | cons p t ih =>
    by_cases hp : p.1 > a.1
    · obtain ⟨b, h1, h2, h3⟩ := ih p
      refine ⟨b, by simpa [bestStep, hp] using h1, ?_, ?_⟩
      · rcases List.mem_cons.1 h2 with rfl | h
        · exact List.mem_cons_of_mem _ (List.mem_cons_self _ _)
        · exact List.mem_cons_of_mem _ (List.mem_cons_of_mem _ h)
      · intro q hq
        rcases List.mem_cons.1 hq with rfl | hq2
        · exact le_trans (le_of_lt hp) (h3 p (List.mem_cons_self _ _))
        · exact h3 q hq2
    · obtain ⟨b, h1, h2, h3⟩ := ih a
      refine ⟨b, by simpa [bestStep, hp] using h1, ?_, ?_⟩
      · rcases List.mem_cons.1 h2 with rfl | h
        · exact List.mem_cons_self _ _
        · exact List.mem_cons_of_mem _ (List.mem_cons_of_mem _ h)
      · intro q hq
        rcases List.mem_cons.1 hq with rfl | hq2
        · exact h3 q (List.mem_cons_self _ _)
        · rcases List.mem_cons.1 hq2 with rfl | hq3
          · exact le_trans (not_lt.1 hp) (h3 a (List.mem_cons_self _ _))
          · exact h3 q (List.mem_cons_of_mem _ hq3)

theorem foldl_bestStep_none_eq_none_iff {V : Type} (l : List (ℚ × V)) :
    l.foldl bestStep none = none ↔ l = [] := by
  cases l with
  | nil => simp
  | cons p t =>
    simp only [List.foldl_cons]
    obtain ⟨b, h1, _, _⟩ := foldl_bestStep_some t p
    rw [show bestStep none p = some p from rfl, h1]
    simp

theorem foldl_bestStep_none_spec {V : Type} (l : List (ℚ × V)) (b : ℚ × V)
    (h : l.foldl bestStep none = some b) : b ∈ l ∧ ∀ q ∈ l, q.1 ≤ b.1 := by
  cases l with
  | nil => simp at h
  | cons p t =>
    obtain ⟨b2, h1, h2, h3⟩ := foldl_bestStep_some t p
    rw [List.foldl_cons, show bestStep none p = some p from rfl, h1] at h
    have hb : b2 = b := Option.some_injective _ h
    exact ⟨hb ▸ h2, fun q hq => hb ▸ h3 q hq⟩

theorem foldl_bestStep_some_eq_find {V : Type} (t : List (ℚ × V)) (a : ℚ × V) :
    t.foldl bestStep (some a) =
      (a :: t).find? (fun p => (a :: t).all (fun q => decide (q.1 ≤ p.1))) := by
  induction t generalizing a with
  | nil => simp
  | cons p t ih =>
    by_cases hp : p.1 > a.1
    · rw [List.foldl_cons, show bestStep (some a) p = some p from by simp [bestStep, hp], ih p]
      have hskip :
          List.find? (fun x => (a :: p :: t).all (fun q => decide (q.1 ≤ x.1))) (a :: p :: t) =
            List.find? (fun x => (a :: p :: t).all (fun q => decide (q.1 ≤ x.1))) (p :: t) := by
        apply List.find?_cons_of_neg
        exact fun hall => absurd ((all_le_iff _ _).1 hall p (by simp)) (not_le.2 hp)
      rw [hskip]
      refine find?_congr_mem _ _ _ (fun x hx => ?_)
      by_cases hx1 : ∀ q ∈ p :: t, q.1 ≤ x.1
      · have ha : a.1 ≤ x.1 := le_of_lt (lt_of_lt_of_le hp (hx1 p (by simp)))
        have e1 : ((p :: t).all (fun q => decide (q.1 ≤ x.1))) = true := (all_le_iff _ _).2 hx1
        have e2 : ((a :: p :: t).all (fun q => decide (q.1 ≤ x.1))) = true := by
          refine (all_le_iff _ _).2 (fun q hq => ?_)
          rcases List.mem_cons.1 hq with rfl | hq2
          · exact ha
          · exact hx1 q hq2
        rw [e1, e2]
      · have e1 : ((p :: t).all (fun q => decide (q.1 ≤ x.1))) = false :=
          Bool.eq_false_iff.2 (fun hall => hx1 ((all_le_iff _ _).1 hall))
        have e2 : ((a :: p :: t).all (fun q => decide (q.1 ≤ x.1))) = false := by
          refine Bool.eq_false_iff.2 (fun hall => hx1 (fun q hq => ?_))
          exact (all_le_iff _ _).1 hall q (List.mem_cons_of_mem _ hq)
        rw [e1, e2]
    · have hpa : p.1 ≤ a.1 := not_lt.1 hp
      rw [List.foldl_cons, show bestStep (some a) p = some a from by simp [bestStep, hp], ih a]
      by_cases hmax : ∀ q ∈ a :: t, q.1 ≤ a.1
      · have hL :
            List.find? (fun x => (a :: t).all (fun q => decide (q.1 ≤ x.1))) (a :: t) =
              some a := by
          apply List.find?_cons_of_pos
          exact (all_le_iff _ _).2 hmax
        have hR :
            List.find? (fun x => (a :: p :: t).all (fun q => decide (q.1 ≤ x.1)))
                (a :: p :: t) = some a := by
          apply List.find?_cons_of_pos
          refine (all_le_iff _ _).2 (fun q hq => ?_)
          rcases List.mem_cons.1 hq with rfl | hq2
          · exact le_refl _
          · rcases List.mem_cons.1 hq2 with rfl | hq3
            · exact hpa
            · exact hmax q (List.mem_cons_of_mem _ hq3)
        rw [hL, hR]
      · obtain ⟨r, hrmem, hra⟩ : ∃ r ∈ t, a.1 < r.1 := by
          push_neg at hmax
          obtain ⟨r, hrmem, hrgt⟩ := hmax
          rcases List.mem_cons.1 hrmem with rfl | hq
          · exact absurd hrgt (lt_irrefl _)
          · exact ⟨r, hq, hrgt⟩
        have hL :
            List.find? (fun x => (a :: t).all (fun q => decide (q.1 ≤ x.1))) (a :: t) =
              List.find? (fun x => (a :: t).all (fun q => decide (q.1 ≤ x.1))) t := by
          apply List.find?_cons_of_neg
          exact fun hall =>
            absurd ((all_le_iff _ _).1 hall r (List.mem_cons_of_mem _ hrmem)) (not_le.2 hra)
        have hR1 :
            List.find? (fun x => (a :: p :: t).all (fun q => decide (q.1 ≤ x.1)))
                (a :: p :: t) =
              List.find? (fun x => (a :: p :: t).all (fun q => decide (q.1 ≤ x.1))) (p :: t) := by
          apply List.find?_cons_of_neg
          exact fun hall => absurd ((all_le_iff _ _).1 hall r (by simp [hrmem])) (not_le.2 hra)
        have hR2 :
            List.find? (fun x => (a :: p :: t).all (fun q => decide (q.1 ≤ x.1))) (p :: t) =
              List.find? (fun x => (a :: p :: t).all (fun q => decide (q.1 ≤ x.1))) t := by
          apply List.find?_cons_of_neg
          exact fun hall => absurd ((all_le_iff _ _).1 hall r (by simp [hrmem]))
            (not_le.2 (lt_of_le_of_lt hpa hra))
        rw [hL, hR1, hR2]
        refine find?_congr_mem _ _ _ (fun x hx => ?_)
        by_cases hx1 : ∀ q ∈ a :: t, q.1 ≤ x.1
        · have e1 : ((a :: t).all (fun q => decide (q.1 ≤ x.1))) = true := (all_le_iff _ _).2 hx1
          have e2 : ((a :: p :: t).all (fun q => decide (q.1 ≤ x.1))) = true := by
            refine (all_le_iff _ _).2 (fun q hq => ?_)
            rcases List.mem_cons.1 hq with rfl | hq2
            · exact hx1 _ (List.mem_cons_self _ _)
            · rcases List.mem_cons.1 hq2 with rfl | hq3
              · exact le_trans hpa (hx1 _ (List.mem_cons_self _ _))
              · exact hx1 q (List.mem_cons_of_mem _ hq3)
          rw [e1, e2]
        · have e1 : ((a :: t).all (fun q => decide (q.1 ≤ x.1))) = false :=
            Bool.eq_false_iff.2 (fun hall => hx1 ((all_le_iff _ _).1 hall))
          have e2 : ((a :: p :: t).all (fun q => decide (q.1 ≤ x.1))) = false := by
            refine Bool.eq_false_iff.2 (fun hall => hx1 (fun q hq => ?_))
            refine (all_le_iff _ _).1 hall q ?_
            rcases List.mem_cons.1 hq with rfl | hq2
            · exact List.mem_cons_self _ _
            · exact List.mem_cons_of_mem _ (List.mem_cons_of_mem _ hq2)
          rw [e1, e2]

theorem get_foldl_latestStep {V : Type} (rows : List (WBDatum V)) (m : SMap (ℚ × V))
    (iso3 : String) :
    SMap.get (rows.foldl latestStep m) iso3 =
      (qualObs rows iso3).foldl bestStep (SMap.get m iso3) := by
  induction rows generalizing m with
  | nil => simp [qualObs]
  | cons d rows ih =>
    rw [List.foldl_cons, ih]
    rcases d with ⟨i?, y?, v?⟩
    rcases i? with _ | i
    · simp [latestStep, qualObs, List.filterMap_cons]
    · rcases y? with _ | y
      · simp [latestStep, qualObs, List.filterMap_cons]
      · rcases v? with _ | v
        · simp [latestStep, qualObs, List.filterMap_cons]
        · by_cases hie : i = ""
          · simp [latestStep, qualObs, List.filterMap_cons, hie]
          · by_cases hii : i = iso3
            · subst hii
              have hq : qualObs ((⟨some i, some y, some v⟩ : WBDatum V) :: rows) i =
                  (y, v) :: qualObs rows i := by
                simp [qualObs, List.filterMap_cons, hie]
              rw [hq, List.foldl_cons]
              have hacc : SMap.get (latestStep m (⟨some i, some y, some v⟩ : WBDatum V)) i =
                  bestStep (SMap.get m i) (y, v) := by
                simp only [latestStep, hie, if_neg, not_false_iff]
                cases hg : SMap.get m i with
                | none => rw [SMap.get_set_self]; rfl
                | some prev =>
                  show SMap.get (if y > prev.1 then SMap.set m i (y, v) else m) i =
                    bestStep (some prev) (y, v)
                  by_cases hy : y > prev.1
                  · rw [if_pos hy, SMap.get_set_self]
                    simp [bestStep, hy]
                  · rw [if_neg hy, hg]
                    simp [bestStep, hy]
              rw [hacc]
            · have hq : qualObs ((⟨some i, some y, some v⟩ : WBDatum V) :: rows) iso3 =
                  qualObs rows iso3 := by
                simp [qualObs, List.filterMap_cons, hii]
              rw [hq]
              have hacc : SMap.get (latestStep m (⟨some i, some y, some v⟩ : WBDatum V)) iso3 =
                  SMap.get m iso3 := by
                simp only [latestStep, hie, if_neg, not_false_iff]
                cases hg : SMap.get m i with
                | none => exact SMap.get_set_ne m i iso3 (y, v) hii
                | some prev =>
                  show SMap.get (if y > prev.1 then SMap.set m i (y, v) else m) iso3 =
                    SMap.get m iso3
                  by_cases hy : y > prev.1
                  · rw [if_pos hy]
                    exact SMap.get_set_ne m i iso3 (y, v) hii
                  · rw [if_neg hy]
              rw [hacc]

theorem get_latestByIso3 {V : Type} (rows : List (WBDatum V)) (iso3 : String) :
    SMap.get (latestByIso3 rows) iso3 = (qualObs rows iso3).foldl bestStep none := by
  have h := get_foldl_latestStep rows [] iso3
  simpa [latestByIso3, SMap.get] using h

/-! ### Claims about the latest-observation reduction -/

/-- Counterexample for C4: the reduction's only value guard is
`val == null`, so a row whose non-nullish value coerces to `NaN` (e.g. the
JSON string `"abc"`, `Number("abc") = NaN`) is included in the reduction
and stored, not excluded as the claim states.  (Likewise `Number("") = 0`:
a non-numeric empty-string value is kept, literally as zero.) -/
theorem latest_reduction_counterexample :
    SMap.get (latestByIso3
        [({ countryiso3code := some "USA", date := some 2021,
            value := some JsVal.nan } : WBDatum JsVal)]) "USA" =
      some (2021, JsVal.nan) := by
  decide

/-- C4 (amended): for every indicator feed and country code, `latestByIso3`
returns a value observed at the maximum year among the country's
qualifying observations, a country with no qualifying observation being
absent from the lookup; rows whose value is nullish, whose country code is
falsy, or whose year is missing / non-numeric are excluded rather than
treated as zero — but any non-nullish value is kept as its `Number(...)`
coercion, even when that coercion is non-numeric (`NaN`). -/
theorem latest_reduction_nullish_only {V : Type} (rows : List (WBDatum V)) (iso3 : String) :
    (SMap.get (latestByIso3 rows) iso3 = none ↔ qualObs rows iso3 = []) ∧
    (∀ (y : ℚ) (v : V), SMap.get (latestByIso3 rows) iso3 = some (y, v) →
      (y, v) ∈ qualObs rows iso3 ∧ ∀ q ∈ qualObs rows iso3, q.1 ≤ y) := by
  constructor
  · rw [get_latestByIso3]
    exact foldl_bestStep_none_eq_none_iff _
  · intro y v h
    rw [get_latestByIso3] at h
    have hs := foldl_bestStep_none_spec _ _ h
    exact ⟨hs.1, fun q hq => hs.2 q hq⟩

/-- Witness for C4: on the sample GDP feed the reduction picks the 2021
observation for USA, and the theorem yields its membership and maximality. -/
theorem latest_reduction_nullish_only_witness :
    SMap.get (latestByIso3 sampleGdpRows) "USA" = some (2021, 100) ∧
    ((2021, 100) ∈ qualObs sampleGdpRows "USA" ∧
      ∀ q ∈ qualObs sampleGdpRows "USA", q.1 ≤ 2021) :=
  ⟨by decide, (latest_reduction_nullish_only sampleGdpRows "USA").2 2021 100 (by decide)⟩

/-- C10: tie-breaking of the latest-value reduction.  For every country
code, the stored observation is exactly the first qualifying observation in
input order whose year is maximal: a later observation replaces the stored
one only when its year is strictly greater, so the reduction is a
deterministic function of the input sequence. -/
theorem latest_tie_keeps_first {V : Type} (rows : List (WBDatum V)) (iso3 : String) :
    SMap.get (latestByIso3 rows) iso3 = firstAtMaxYear (qualObs rows iso3) := by
  rw [get_latestByIso3]
  cases hq : qualObs rows iso3 with
  | nil => simp [firstAtMaxYear]
  | cons p t =>
    rw [List.foldl_cons, show bestStep none p = some p from rfl,
      foldl_bestStep_some_eq_find]
    rfl

/-! ### Claims about the CSV splitter and the median -/

theorem splitCsvAux_quoted (cs : List Char) (hq : '"' ∉ cs) :
    ∀ (out : List (List Char)) (cur : List Char),
      splitCsvAux true out cur (cs ++ ['"']) = out ++ [cur ++ cs] := by
  induction cs with
  | nil => intro out cur; simp [splitCsvAux]
  | cons c cs ih =>
    intro out cur
    have hc : ¬c = '"' := fun he => hq (he ▸ List.mem_cons_self c cs)
    have hq2 : '"' ∉ cs := fun h => hq (List.mem_cons_of_mem _ h)
    rw [List.cons_append]
    rw [show splitCsvAux true out cur (c :: (cs ++ ['"'])) =
        splitCsvAux true out (cur ++ [c]) (cs ++ ['"']) from by
      conv_lhs => rw [splitCsvAux.eq_def]
      simp [hc]]
    rw [ih hq2]
    simp

/-- C8: the CSV line splitter implements standard CSV quoting.  A quoted
field (no embedded quote) parses to itself even when it contains commas,
and the two concrete scenarios of the specification hold: the line
`USA,"Smith, John",1` yields exactly three fields, and a doubled quote
inside a quoted field yields one literal quote character. -/
theorem splitCsvLine_quoting :
    (∀ field : String, '"' ∉ field.data →
        splitCsvLine ("\"" ++ field ++ "\"") = [field]) ∧
    splitCsvLine "USA,\"Smith, John\",1" = ["USA", "Smith, John", "1"] ∧
    splitCsvLine "\"He said \"\"hi\"\"\"" = ["He said \"hi\""] := by
  refine ⟨?_, by decide, by decide⟩
  intro field hq
  have hdata : ("\"" ++ field ++ "\"").data = '"' :: (field.data ++ ['"']) := by
    simp [String.data_append]
  rw [splitCsvLine, hdata]
  have h1 : splitCsvAux false [] [] ('"' :: (field.data ++ ['"'])) =
      splitCsvAux true [] [] (field.data ++ ['"']) := by
    conv_lhs => rw [splitCsvAux.eq_def]
    simp
  rw [h1, splitCsvAux_quoted field.data hq [] []]
  simp

/-- Witness for C8: the general quoted-field clause applied to the field
`Smith, John`, whose embedded comma does not split. -/
theorem splitCsvLine_quoting_witness :
    '"' ∉ "Smith, John".data ∧ splitCsvLine "\"Smith, John\"" = ["Smith, John"] :=
  ⟨by decide, splitCsvLine_quoting.1 "Smith, John" (by decide)⟩

theorem median_eq_none_iff (l : List ℚ) : median l = none ↔ l = [] := by
  unfold median
  by_cases h : l = []
  · subst h
    simp [sortAsc]
  · have hlen : (sortAsc l).length = l.length := by
      unfold sortAsc
      exact List.length_insertionSort _ _
    have hne : ¬(sortAsc l).length = 0 := by
      rw [hlen]
      simpa [List.length_eq_zero] using h
    simp only [hne, if_false]
    split_ifs <;> simp [h]

/-- C9: for every segment and each of the four scoring indicators, the
fallback statistic is the median of that indicator's observed values in
the segment whenever there are any (middle element for an odd count, mean
of the two middle elements for an even count, on the ascending sort —
median of [10, 20, 30] is 20 and of [10, 20] is 15), and the literal
per-indicator default 30 / 50 / 8000 / 55 exactly when that indicator has
zero observations in the segment (`median` returns `null` precisely on an
empty collection). -/
theorem median_fallback_defaults (inp : Input) (seg : Seg) :
    ((∀ v : ℚ,
        median (segValsOf (countriesOf inp) (latestByIso3 inp.mcapRows) seg) = some v →
          (medOf inp seg).mcap = v) ∧
      (segValsOf (countriesOf inp) (latestByIso3 inp.mcapRows) seg = [] →
        (medOf inp seg).mcap = 30)) ∧
    ((∀ v : ℚ,
        median (segValsOf (countriesOf inp) (latestByIso3 inp.creditRows) seg) = some v →
          (medOf inp seg).credit = v) ∧
      (segValsOf (countriesOf inp) (latestByIso3 inp.creditRows) seg = [] →
        (medOf inp seg).credit = 50)) ∧
    ((∀ v : ℚ,
        median (segValsOf (countriesOf inp) (latestByIso3 inp.gdppcRows) seg) = some v →
          (medOf inp seg).gdppc = v) ∧
      (segValsOf (countriesOf inp) (latestByIso3 inp.gdppcRows) seg = [] →
        (medOf inp seg).gdppc = 8000)) ∧
    ((∀ v : ℚ,
        median (segValsOf (countriesOf inp) (latestByIso3 inp.netRows) seg) = some v →
          (medOf inp seg).net = v) ∧
      (segValsOf (countriesOf inp) (latestByIso3 inp.netRows) seg = [] →
        (medOf inp seg).net = 55)) ∧
    (∀ l : List ℚ, median l = none ↔ l = []) ∧
    (∀ l : List ℚ, l.Perm (sortAsc l) ∧ (sortAsc l).Sorted (· ≤ ·)) ∧
    median [10, 20, 30] = some 20 ∧ median [10, 20] = some 15 := by
  refine ⟨⟨fun v h => by simp [medOf, h], fun h => by simp [medOf, h, median, sortAsc]⟩,
    ⟨fun v h => by simp [medOf, h], fun h => by simp [medOf, h, median, sortAsc]⟩,
    ⟨fun v h => by simp [medOf, h], fun h => by simp [medOf, h, median, sortAsc]⟩,
    ⟨fun v h => by simp [medOf, h], fun h => by simp [medOf, h, median, sortAsc]⟩,
    median_eq_none_iff, ?_, by decide, ?_⟩
  · intro l
    exact ⟨(List.perm_insertionSort _ l).symm, List.sorted_insertionSort _ l⟩
  · have hs : sortAsc [(10 : ℚ), 20] = [10, 20] := by decide
    simp only [median, hs]
    norm_num

/-- Witness for C9: in the sample input the EMEA segment has observed
market-cap values [40, 40, 50] with median 40, while the APAC segment has
none for market-cap and receives the literal default 30. -/
theorem median_fallback_defaults_witness :
    median (segValsOf (countriesOf sampleInput) (latestByIso3 sampleInput.mcapRows)
        Seg.EMEA) = some 40 ∧
    (medOf sampleInput Seg.EMEA).mcap = 40 ∧
    segValsOf (countriesOf sampleInput) (latestByIso3 sampleInput.mcapRows) Seg.APAC = [] ∧
    (medOf sampleInput Seg.APAC).mcap = 30 :=
  ⟨by decide, (median_fallback_defaults sampleInput Seg.EMEA).1.1 40 (by decide),
   by decide, (median_fallback_defaults sampleInput Seg.APAC).1.2 (by decide)⟩

/-! ### Lemmas about the score maps -/

theorem scores_fold_proj (inp : Input) (cs : List TaxCountry) (acc : Seg → SMap ℝ) (seg : Seg) :
    (cs.foldl
        (fun acc c =>
          match c.seg with
          | none => acc
          | some seg =>
            fun s => if s = seg then SMap.set (acc seg) c.iso3 (scoreOf inp c seg) else acc s)
        acc) seg =
      (segCountries cs seg).foldl (fun m c => SMap.set m c.iso3 (scoreOf inp c seg)) (acc seg) := by
  induction cs generalizing acc with
  | nil => simp [segCountries]
  | cons c t ih =>
    rw [List.foldl_cons]
    cases hs : c.seg with
    | none =>
      have hf : segCountries (c :: t) seg = segCountries t seg := by
        simp [segCountries, List.filter_cons, hs]
      rw [hf]
      simp only [hs]
      exact ih acc
    | some s2 =>
      simp only [hs]
      by_cases he : s2 = seg
      · subst he
        have hf : segCountries (c :: t) s2 = c :: segCountries t s2 := by
          simp [segCountries, List.filter_cons, hs]
        rw [hf, List.foldl_cons, ih]
        congr 1
        simp
      · have hf : segCountries (c :: t) seg = segCountries t seg := by
          simp [segCountries, List.filter_cons, hs, he]
        rw [hf, ih]
        congr 1
        exact if_neg (fun h => he h.symm)

theorem scoresOf_eq (inp : Input) (seg : Seg) :
    scoresOf inp seg =
      (segCountries (countriesOf inp) seg).foldl
        (fun m c => SMap.set m c.iso3 (scoreOf inp c seg)) [] := by
  have h := scores_fold_proj inp (countriesOf inp) (fun _ => []) seg
  simpa [scoresOf] using h

theorem find?_reverse_unique {l : List TaxCountry} {c : TaxCountry}
    (hnd : (l.map (fun x => x.iso3)).Nodup) (hc : c ∈ l) :
    l.reverse.find? (fun b => b.iso3 == c.iso3) = some c := by
  have hmemrev : c ∈ l.reverse := List.mem_reverse.2 hc
  have hsome : (l.reverse.find? (fun b => b.iso3 == c.iso3)).isSome := by
    rw [List.find?_isSome]
    exact ⟨c, hmemrev, by simp⟩
  obtain ⟨b, hb⟩ := Option.isSome_iff_exists.1 hsome
  have hbp := List.find?_some hb
  have hbmem : b ∈ l := List.mem_reverse.1 (List.mem_of_find?_eq_some hb)
  have hbc : b = c :=
    List.inj_on_of_nodup_map hnd hbmem hc (by simpa using hbp)
  rw [hb, hbc]

theorem nodup_seg_iso3 (inp : Input) (seg : Seg)
    (hnd : ((countriesOf inp).map (fun x => x.iso3)).Nodup) :
    ((segCountries (countriesOf inp) seg).map (fun x => x.iso3)).Nodup := by
  refine List.Nodup.sublist ?_ hnd
  exact List.Sublist.map _ (List.filter_sublist _)

theorem get_scoresOf (inp : Input) (seg : Seg) (c : TaxCountry)
    (hnd : ((countriesOf inp).map (fun x => x.iso3)).Nodup)
    (hc : c ∈ countriesOf inp) (hseg : c.seg = some seg) :
    SMap.get (scoresOf inp seg) c.iso3 = some (scoreOf inp c seg) := by
  rw [scoresOf_eq]
  rw [get_foldl_set (fun c => c.iso3) (fun c => scoreOf inp c seg) _ [] c.iso3]
  have hmem : c ∈ segCountries (countriesOf inp) seg := by
    simp [segCountries, List.mem_filter, hc, hseg]
  rw [find?_reverse_unique (nodup_seg_iso3 inp seg hnd) hmem]

theorem sumValues_scoresOf (inp : Input) (seg : Seg)
    (hnd : ((countriesOf inp).map (fun x => x.iso3)).Nodup) :
    sumValues (scoresOf inp seg) =
      ((segCountries (countriesOf inp) seg).map (fun c => scoreOf inp c seg)).sum := by
  rw [scoresOf_eq]
  have h := values_foldl_set_fresh (fun c => c.iso3) (fun c => scoreOf inp c seg)
    (segCountries (countriesOf inp) seg) [] (by simp [SMap.keys]) (nodup_seg_iso3 inp seg hnd)
  unfold sumValues
  unfold SMap.values at h
  rw [h]
  simp

/-! ### Lemmas about the score value -/

theorem one_add_clamp_pos (x hi d : ℚ) (hd : 0 < d) : (0 : ℚ) < 1 + clamp x 0 hi / d := by
  have h0 : (0 : ℚ) ≤ clamp x 0 hi := le_max_left _ _
  have h1 : (0 : ℚ) ≤ clamp x 0 hi / d := div_nonneg h0 (le_of_lt hd)
  linarith

theorem internet_base_pos (x : ℚ) : (0 : ℚ) < 0.2 + clamp x 0 100 / 100 := by
  have h0 : (0 : ℚ) ≤ clamp x 0 100 / 100 :=
    div_nonneg (le_max_left _ _) (by norm_num)
  have h2 : (0 : ℚ) < 0.2 := by norm_num
  linarith

theorem hub_mult_pos (k : String) : (0 : ℚ) < (SMap.get HUB_MULT k).getD 1 := by
  cases h : SMap.get HUB_MULT k with
  | none => norm_num
  | some v =>
    have hmem := SMap.get_mem _ _ _ h
    unfold HUB_MULT at hmem
    simp only [List.mem_cons, List.not_mem_nil, or_false] at hmem
    simp only [Option.getD_some]
    rcases hmem with h14 | h14 | h14 | h14 | h14 | h14 | h14 | h14 | h14 | h14 | h14 |
        h14 | h14 | h14 <;>
      · rw [Prod.mk.injEq] at h14
        rw [h14.2]
        norm_num

theorem scoreOf_eq_of_no_gdp (inp : Input) (c : TaxCountry) (seg : Seg)
    (h : (SMap.get (latestByIso3 inp.gdpRows) c.iso3).map (fun p => p.2) = none) :
    scoreOf inp c seg = 1e-9 := by
  unfold scoreOf
  rw [h]

theorem scoreOf_eq_of_nonpos_gdp (inp : Input) (c : TaxCountry) (seg : Seg) (g : ℚ)
    (h : (SMap.get (latestByIso3 inp.gdpRows) c.iso3).map (fun p => p.2) = some g)
    (hle : g ≤ 0) : scoreOf inp c seg = 1e-9 := by
  unfold scoreOf
  rw [h]
  simp [hle]

theorem scoreOf_eq_formula (inp : Input) (c : TaxCountry) (seg : Seg) (g : ℚ)
    (h : (SMap.get (latestByIso3 inp.gdpRows) c.iso3).map (fun p => p.2) = some g)
    (hpos : 0 < g) :
    scoreOf inp c seg =
      ((g : ℚ) : ℝ) ^ (0.7 : ℝ) *
        ((1 + clamp (mpOf inp c seg) 0 400 / 100 : ℚ) : ℝ) ^ (0.9 : ℝ) *
        ((1 + clamp (cpOf inp c seg) 0 300 / 100 : ℚ) : ℝ) ^ (0.6 : ℝ) *
        ((1 + clamp (gpOf inp c seg) 0 80000 / 50000 : ℚ) : ℝ) ^ (0.35 : ℝ) *
        ((0.2 + clamp (npOf inp c seg) 0 100 / 100 : ℚ) : ℝ) ^ (0.25 : ℝ) *
        (((SMap.get HUB_MULT c.iso3).getD 1 : ℚ) : ℝ) *
        (if OFFICE_COUNTRIES.contains c.iso3 then ((OFFICE_MULT : ℚ) : ℝ) else 1) *
        (if NEAR_ZERO.contains c.iso3 then ((NEAR_ZERO_MULT : ℚ) : ℝ) else 1) := by
  unfold scoreOf
  rw [h]
  have hle : ¬g ≤ 0 := not_le.2 hpos
  simp only [hle, if_false]
  split_ifs <;> ring

theorem scoreOf_pos (inp : Input) (c : TaxCountry) (seg : Seg) : 0 < scoreOf inp c seg := by
  cases h : (SMap.get (latestByIso3 inp.gdpRows) c.iso3).map (fun p => p.2) with
  | none =>
    rw [scoreOf_eq_of_no_gdp inp c seg h]
    norm_num
  | some g =>
    by_cases hle : g ≤ 0
    · rw [scoreOf_eq_of_nonpos_gdp inp c seg g h hle]
      norm_num
    · have hpos : 0 < g := lt_of_not_le hle
      rw [scoreOf_eq_formula inp c seg g h hpos]
      have f1 : (0 : ℝ) < ((g : ℚ) : ℝ) ^ (0.7 : ℝ) :=
        Real.rpow_pos_of_pos (by exact_mod_cast hpos) _
      have f2 : (0 : ℝ) < ((1 + clamp (mpOf inp c seg) 0 400 / 100 : ℚ) : ℝ) ^ (0.9 : ℝ) :=
        Real.rpow_pos_of_pos
          (by exact_mod_cast one_add_clamp_pos (mpOf inp c seg) 400 100 (by norm_num)) _
      have f3 : (0 : ℝ) < ((1 + clamp (cpOf inp c seg) 0 300 / 100 : ℚ) : ℝ) ^ (0.6 : ℝ) :=
        Real.rpow_pos_of_pos
          (by exact_mod_cast one_add_clamp_pos (cpOf inp c seg) 300 100 (by norm_num)) _
      have f4 : (0 : ℝ) <
          ((1 + clamp (gpOf inp c seg) 0 80000 / 50000 : ℚ) : ℝ) ^ (0.35 : ℝ) :=
        Real.rpow_pos_of_pos
          (by exact_mod_cast one_add_clamp_pos (gpOf inp c seg) 80000 50000 (by norm_num)) _
      have f5 : (0 : ℝ) < ((0.2 + clamp (npOf inp c seg) 0 100 / 100 : ℚ) : ℝ) ^ (0.25 : ℝ) :=
        Real.rpow_pos_of_pos (by exact_mod_cast internet_base_pos (npOf inp c seg)) _
      have fh : (0 : ℝ) < (((SMap.get HUB_MULT c.iso3).getD 1 : ℚ) : ℝ) := by
        exact_mod_cast hub_mult_pos c.iso3
      have fo : (0 : ℝ) <
          (if OFFICE_COUNTRIES.contains c.iso3 then ((OFFICE_MULT : ℚ) : ℝ) else 1) := by
        split_ifs
        · norm_num [OFFICE_MULT]
        · norm_num
      have fz : (0 : ℝ) <
          (if NEAR_ZERO.contains c.iso3 then ((NEAR_ZERO_MULT : ℚ) : ℝ) else 1) := by
        split_ifs
        · norm_num [NEAR_ZERO_MULT]
        · norm_num
      exact mul_pos (mul_pos (mul_pos (mul_pos (mul_pos (mul_pos (mul_pos f1 f2) f3) f4) f5)
        fh) fo) fz

/-! ### Lemmas about the allocation loop -/

theorem sumValues_scoresOf_pos (inp : Input) (seg : Seg)
    (hnd : ((countriesOf inp).map (fun x => x.iso3)).Nodup)
    (hne : ∃ c ∈ countriesOf inp, c.seg = some seg) :
    0 < sumValues (scoresOf inp seg) := by
  rw [sumValues_scoresOf inp seg hnd]
  apply List.sum_pos
  · intro x hx
    obtain ⟨c, _, rfl⟩ := List.mem_map.1 hx
    exact scoreOf_pos inp c seg
  · obtain ⟨c, hc, hseg⟩ := hne
    have hmem : c ∈ segCountries (countriesOf inp) seg := by
      simp [segCountries, List.mem_filter, hc, hseg]
    intro hnil
    rw [List.map_eq_nil_iff] at hnil
    rw [hnil] at hmem
    exact List.not_mem_nil c hmem

theorem allocRowOf_fields (inp : Input) (seg : Seg) (c : TaxCountry) :
    (allocRowOf inp seg c).iso3 = c.iso3 ∧
    (allocRowOf inp seg c).segment = seg ∧
    (allocRowOf inp seg c).revenueMillions =
      ((SEGMENT_REVENUE_USD_M seg : ℚ) : ℝ) *
        (if 0 < sumValues (scoresOf inp seg) then
          (SMap.get (scoresOf inp seg) c.iso3).getD 0 / sumValues (scoresOf inp seg)
        else 0) :=
  ⟨rfl, rfl, rfl⟩

theorem allocRowOf_mem (inp : Input) (seg : Seg) (c : TaxCountry)
    (hc : c ∈ countriesOf inp) (hseg : c.seg = some seg) :
    allocRowOf inp seg c ∈ allocationsOf inp := by
  unfold allocationsOf
  rw [List.mem_flatMap]
  refine ⟨seg, by cases seg <;> simp [segKeysOrder], ?_⟩
  exact List.mem_map_of_mem _ (by simp [segCountries, List.mem_filter, hc, hseg])

theorem allocRowOf_revenue_eq (inp : Input) (seg : Seg) (c : TaxCountry)
    (hnd : ((countriesOf inp).map (fun x => x.iso3)).Nodup)
    (hc : c ∈ countriesOf inp) (hseg : c.seg = some seg) :
    (allocRowOf inp seg c).revenueMillions =
      ((SEGMENT_REVENUE_USD_M seg : ℚ) : ℝ) *
        (scoreOf inp c seg / sumValues (scoresOf inp seg)) := by
  have hpos : 0 < sumValues (scoresOf inp seg) :=
    sumValues_scoresOf_pos inp seg hnd ⟨c, hc, hseg⟩
  have h := (allocRowOf_fields inp seg c).2.2
  rw [h, if_pos hpos, get_scoresOf inp seg c hnd hc hseg]
  rfl

theorem anchor_pos (seg : Seg) : (0 : ℚ) < SEGMENT_REVENUE_USD_M seg := by
  cases seg <;> norm_num [SEGMENT_REVENUE_USD_M]

theorem alloc_filter_seg (inp : Input) (seg : Seg) :
    (allocationsOf inp).filter (fun r => r.segment == seg) =
      (segCountries (countriesOf inp) seg).map (allocRowOf inp seg) := by
  unfold allocationsOf
  have hblock : ∀ s : Seg,
      ((segCountries (countriesOf inp) s).map (allocRowOf inp s)).filter
          (fun r => r.segment == seg) =
        if s = seg then (segCountries (countriesOf inp) s).map (allocRowOf inp s) else [] := by
    intro s
    rw [List.filter_map]
    by_cases hs : s = seg
    · subst hs
      rw [if_pos rfl]
      have hp : ∀ c ∈ segCountries (countriesOf inp) s,
          ((fun r => r.segment == s) ∘ allocRowOf inp s) c = true := by
        intro c _
        simp [allocRowOf]
      rw [List.filter_eq_self.2 hp]
    · rw [if_neg hs]
      have hp : ∀ c ∈ segCountries (countriesOf inp) s,
          ¬(((fun r => r.segment == seg) ∘ allocRowOf inp s) c = true) := by
        intro c _
        simp [allocRowOf, hs]
      rw [List.filter_eq_nil_iff.2 hp]
      simp
  cases seg <;> simp [segKeysOrder, List.filter_append, hblock]

theorem block_sum_eq_anchor (inp : Input) (seg : Seg)
    (hnd : ((countriesOf inp).map (fun x => x.iso3)).Nodup)
    (hne : ∃ c ∈ countriesOf inp, c.seg = some seg) :
    (((segCountries (countriesOf inp) seg).map (allocRowOf inp seg)).map
        (fun r => r.revenueMillions)).sum =
      ((SEGMENT_REVENUE_USD_M seg : ℚ) : ℝ) := by
  rw [List.map_map]
  have hS : 0 < sumValues (scoresOf inp seg) := sumValues_scoresOf_pos inp seg hnd hne
  have hcongr : ∀ c ∈ segCountries (countriesOf inp) seg,
      ((fun r => r.revenueMillions) ∘ allocRowOf inp seg) c =
        (((SEGMENT_REVENUE_USD_M seg : ℚ) : ℝ) / sumValues (scoresOf inp seg)) *
          scoreOf inp c seg := by
    intro c hcmem
    have hc : c ∈ countriesOf inp := (List.mem_filter.1 hcmem).1
    have hseg : c.seg = some seg := by
      have h2 := (List.mem_filter.1 hcmem).2
      simpa using h2
    rw [Function.comp_apply, allocRowOf_revenue_eq inp seg c hnd hc hseg]
    ring
  rw [List.map_congr_left hcongr, List.sum_map_mul_left,
    ← sumValues_scoresOf inp seg hnd]
  rw [div_mul_cancel₀ _ (ne_of_gt hS)]

theorem segment_sum_eq_anchor (inp : Input) (seg : Seg)
    (hnd : ((countriesOf inp).map (fun x => x.iso3)).Nodup)
    (hne : ∃ c ∈ countriesOf inp, c.seg = some seg) :
    (((allocationsOf inp).filter (fun r => r.segment == seg)).map
        (fun r => r.revenueMillions)).sum = ((SEGMENT_REVENUE_USD_M seg : ℚ) : ℝ) := by
  rw [alloc_filter_seg]
  exact block_sum_eq_anchor inp seg hnd hne

/-- C1: within every segment the allocated revenues sum exactly (over exact
rational / real arithmetic) to the segment's fixed anchor total, and the
grand total equals the sum of the three anchors, whenever each segment has
at least one country (and taxonomy iso3 codes are unique, as the data model
requires). -/
theorem allocation_sums_to_anchors (inp : Input)
    (hnd : ((countriesOf inp).map (fun x => x.iso3)).Nodup)
    (hA : ∃ c ∈ countriesOf inp, c.seg = some Seg.AMERICAS)
    (hE : ∃ c ∈ countriesOf inp, c.seg = some Seg.EMEA)
    (hP : ∃ c ∈ countriesOf inp, c.seg = some Seg.APAC) :
    (∀ seg : Seg,
      (((allocationsOf inp).filter (fun r => r.segment == seg)).map
          (fun r => r.revenueMillions)).sum = ((SEGMENT_REVENUE_USD_M seg : ℚ) : ℝ)) ∧
    totalRevenueOf inp =
      ((SEGMENT_REVENUE_USD_M Seg.AMERICAS + SEGMENT_REVENUE_USD_M Seg.EMEA +
          SEGMENT_REVENUE_USD_M Seg.APAC : ℚ) : ℝ) := by
  have hsome : ∀ seg : Seg, ∃ c ∈ countriesOf inp, c.seg = some seg := by
    intro seg
    cases seg
    exacts [hA, hE, hP]
  refine ⟨fun seg => segment_sum_eq_anchor inp seg hnd (hsome seg), ?_⟩
  unfold totalRevenueOf allocationsOf
  simp only [segKeysOrder, List.flatMap_cons, List.flatMap_nil, List.append_nil,
    List.map_append, List.sum_append]
  rw [block_sum_eq_anchor inp .AMERICAS hnd hA, block_sum_eq_anchor inp .EMEA hnd hE,
    block_sum_eq_anchor inp .APAC hnd hP]
  push_cast
  ring

/-- Witness for C1: the sample input has unique iso3 codes and one country
in each segment, so the grand total equals the sum of the three anchors. -/
theorem allocation_sums_to_anchors_witness :
    ((countriesOf sampleInput).map (fun x => x.iso3)).Nodup ∧
    totalRevenueOf sampleInput =
      ((SEGMENT_REVENUE_USD_M Seg.AMERICAS + SEGMENT_REVENUE_USD_M Seg.EMEA +
          SEGMENT_REVENUE_USD_M Seg.APAC : ℚ) : ℝ) :=
  ⟨by decide,
    (allocation_sums_to_anchors sampleInput (by decide) (by decide) (by decide)
        (by decide)).2⟩

/-! ### Claims about indicator resolution and scoring -/

/-- Counterexample for C3: the resolution of lines 252-255 is
`lookup.get(iso3)?.value ?? segMedian`, and `??` falls back only on
nullish values.  A stored non-finite direct value — here `NaN`, the
`Number(...)` coercion of a non-numeric feed value — is therefore used
directly rather than replaced by the segment median (30). -/
theorem indicator_resolution_counterexample :
    resolveIndicator (latestByIso3
        [({ countryiso3code := some "USA", date := some 2021,
            value := some JsVal.nan } : WBDatum JsVal)]) "USA" (JsVal.num 30) =
      JsVal.nan ∧ JsVal.nan ≠ JsVal.num 30 :=
  ⟨by decide, by decide⟩

/-- C3 (amended): for a country with a segment and positive GDP, each of
the four optional indicators resolves to the country's direct latest value
whenever the lookup has one, and to the country's segment median exactly
when the lookup has none; the fallback is nullish-only, so over the
general value domain a present non-finite value (such as `NaN`) is used
directly, never replaced by the median. -/
theorem indicator_resolution_nullish_only (inp : Input) (c : TaxCountry) (seg : Seg)
    (_hc : c ∈ countriesOf inp) (_hseg : c.seg = some seg)
    (_hg : ∃ gv : ℚ × ℚ, SMap.get (latestByIso3 inp.gdpRows) c.iso3 = some gv ∧ 0 < gv.2) :
    ((∀ yv : ℚ × ℚ, SMap.get (latestByIso3 inp.mcapRows) c.iso3 = some yv →
        mpOf inp c seg = yv.2) ∧
      (SMap.get (latestByIso3 inp.mcapRows) c.iso3 = none →
        mpOf inp c seg = (medOf inp seg).mcap)) ∧
    ((∀ yv : ℚ × ℚ, SMap.get (latestByIso3 inp.creditRows) c.iso3 = some yv →
        cpOf inp c seg = yv.2) ∧
      (SMap.get (latestByIso3 inp.creditRows) c.iso3 = none →
        cpOf inp c seg = (medOf inp seg).credit)) ∧
    ((∀ yv : ℚ × ℚ, SMap.get (latestByIso3 inp.gdppcRows) c.iso3 = some yv →
        gpOf inp c seg = yv.2) ∧
      (SMap.get (latestByIso3 inp.gdppcRows) c.iso3 = none →
        gpOf inp c seg = (medOf inp seg).gdppc)) ∧
    ((∀ yv : ℚ × ℚ, SMap.get (latestByIso3 inp.netRows) c.iso3 = some yv →
        npOf inp c seg = yv.2) ∧
      (SMap.get (latestByIso3 inp.netRows) c.iso3 = none →
        npOf inp c seg = (medOf inp seg).net)) ∧
    (∀ (m : SMap (ℚ × JsVal)) (iso3 : String) (fb : JsVal) (yv : ℚ × JsVal),
      SMap.get m iso3 = some yv → resolveIndicator m iso3 fb = yv.2) :=
  ⟨⟨fun yv h => by simp [mpOf, resolveIndicator, h],
    fun h => by simp [mpOf, resolveIndicator, h]⟩,
   ⟨fun yv h => by simp [cpOf, resolveIndicator, h],
    fun h => by simp [cpOf, resolveIndicator, h]⟩,
   ⟨fun yv h => by simp [gpOf, resolveIndicator, h],
    fun h => by simp [gpOf, resolveIndicator, h]⟩,
   ⟨fun yv h => by simp [npOf, resolveIndicator, h],
    fun h => by simp [npOf, resolveIndicator, h]⟩,
   fun m iso3 fb yv h => by simp [resolveIndicator, h]⟩

/-- Witness for C3 (amended): in the sample input USA has a direct
market-cap value, which is used, and no credit value, so the segment
median is used. -/
theorem indicator_resolution_nullish_only_witness :
    SMap.get (latestByIso3 sampleInput.mcapRows) "USA" = some (2021, 30) ∧
    mpOf sampleInput usaSample Seg.AMERICAS = 30 ∧
    SMap.get (latestByIso3 sampleInput.creditRows) "USA" = none ∧
    cpOf sampleInput usaSample Seg.AMERICAS = (medOf sampleInput Seg.AMERICAS).credit := by
  have h := indicator_resolution_nullish_only sampleInput usaSample Seg.AMERICAS (by decide)
    (by decide) ⟨(2021, 100), by decide, by decide⟩
  exact ⟨by decide, h.1.1 (2021, 30) (by decide), by decide, h.2.1.2 (by decide)⟩

/-- C5: the stored score of a country with a segment and positive GDP is
`gdp^0.7` times the four clamped indicator factors, times the hub
multiplier (1 when absent), times 1.15 when in the office set, times 0.01
when in the near-zero set, compounding multiplicatively. -/
theorem score_formula_stored (inp : Input) (c : TaxCountry) (seg : Seg) (gv : ℚ × ℚ)
    (hnd : ((countriesOf inp).map (fun x => x.iso3)).Nodup)
    (hc : c ∈ countriesOf inp) (hseg : c.seg = some seg)
    (hg : SMap.get (latestByIso3 inp.gdpRows) c.iso3 = some gv) (hpos : 0 < gv.2) :
    SMap.get (scoresOf inp seg) c.iso3 =
      some (((gv.2 : ℚ) : ℝ) ^ (0.7 : ℝ) *
        ((1 + clamp (mpOf inp c seg) 0 400 / 100 : ℚ) : ℝ) ^ (0.9 : ℝ) *
        ((1 + clamp (cpOf inp c seg) 0 300 / 100 : ℚ) : ℝ) ^ (0.6 : ℝ) *
        ((1 + clamp (gpOf inp c seg) 0 80000 / 50000 : ℚ) : ℝ) ^ (0.35 : ℝ) *
        ((0.2 + clamp (npOf inp c seg) 0 100 / 100 : ℚ) : ℝ) ^ (0.25 : ℝ) *
        (((SMap.get HUB_MULT c.iso3).getD 1 : ℚ) : ℝ) *
        (if OFFICE_COUNTRIES.contains c.iso3 then ((OFFICE_MULT : ℚ) : ℝ) else 1) *
        (if NEAR_ZERO.contains c.iso3 then ((NEAR_ZERO_MULT : ℚ) : ℝ) else 1)) := by
  rw [get_scoresOf inp seg c hnd hc hseg,
    scoreOf_eq_formula inp c seg gv.2 (by rw [hg]; rfl) hpos]

/-- Witness for C5: the stored score of USA in the sample input. -/
theorem score_formula_stored_witness :
    SMap.get (latestByIso3 sampleInput.gdpRows) "USA" = some (2021, 100) ∧
    SMap.get (scoresOf sampleInput Seg.AMERICAS) "USA" =
      some ((((100 : ℚ) : ℝ)) ^ (0.7 : ℝ) *
        ((1 + clamp (mpOf sampleInput usaSample Seg.AMERICAS) 0 400 / 100 : ℚ) : ℝ) ^
          (0.9 : ℝ) *
        ((1 + clamp (cpOf sampleInput usaSample Seg.AMERICAS) 0 300 / 100 : ℚ) : ℝ) ^
          (0.6 : ℝ) *
        ((1 + clamp (gpOf sampleInput usaSample Seg.AMERICAS) 0 80000 / 50000 : ℚ) : ℝ) ^
          (0.35 : ℝ) *
        ((0.2 + clamp (npOf sampleInput usaSample Seg.AMERICAS) 0 100 / 100 : ℚ) : ℝ) ^
          (0.25 : ℝ) *
        (((SMap.get HUB_MULT "USA").getD 1 : ℚ) : ℝ) *
        (if OFFICE_COUNTRIES.contains "USA" then ((OFFICE_MULT : ℚ) : ℝ) else 1) *
        (if NEAR_ZERO.contains "USA" then ((NEAR_ZERO_MULT : ℚ) : ℝ) else 1)) :=
  ⟨by decide,
    score_formula_stored sampleInput usaSample Seg.AMERICAS (2021, 100) (by decide)
      (by decide) (by decide) (by decide) (by decide)⟩

/-- C6: a country with a segment whose GDP is missing or non-positive gets
exactly the score `1e-9`, strictly positive, and receives a strictly
positive revenue allocation (the segment anchors are positive). -/
theorem missing_gdp_negligible (inp : Input) (c : TaxCountry) (seg : Seg)
    (hnd : ((countriesOf inp).map (fun x => x.iso3)).Nodup)
    (hc : c ∈ countriesOf inp) (hseg : c.seg = some seg)
    (hg : (SMap.get (latestByIso3 inp.gdpRows) c.iso3).map (fun p => p.2) = none ∨
      ∃ g : ℚ, (SMap.get (latestByIso3 inp.gdpRows) c.iso3).map (fun p => p.2) = some g ∧
        g ≤ 0) :
    SMap.get (scoresOf inp seg) c.iso3 = some ((1e-9 : ℝ)) ∧
    (0 : ℝ) < (1e-9 : ℝ) ∧
    ∃ row ∈ allocationsOf inp, row.iso3 = c.iso3 ∧ 0 < row.revenueMillions := by
  have hsc : scoreOf inp c seg = 1e-9 := by
    rcases hg with h | ⟨g, h, hle⟩
    · exact scoreOf_eq_of_no_gdp inp c seg h
    · exact scoreOf_eq_of_nonpos_gdp inp c seg g h hle
  refine ⟨by rw [get_scoresOf inp seg c hnd hc hseg, hsc], by norm_num, ?_⟩
  refine ⟨allocRowOf inp seg c, allocRowOf_mem inp seg c hc hseg, rfl, ?_⟩
  rw [allocRowOf_revenue_eq inp seg c hnd hc hseg, hsc]
  have hS := sumValues_scoresOf_pos inp seg hnd ⟨c, hc, hseg⟩
  have hT : (0 : ℝ) < ((SEGMENT_REVENUE_USD_M seg : ℚ) : ℝ) := by
    exact_mod_cast anchor_pos seg
  exact mul_pos hT (div_pos (by norm_num) hS)

/-- Witness for C6: Japan has no GDP row in the sample input, gets the
negligible score, and still receives a strictly positive allocation. -/
theorem missing_gdp_negligible_witness :
    SMap.get (latestByIso3 sampleInput.gdpRows) "JPN" = none ∧
    SMap.get (scoresOf sampleInput Seg.APAC) "JPN" = some ((1e-9 : ℝ)) ∧
    ∃ row ∈ allocationsOf sampleInput, row.iso3 = "JPN" ∧ 0 < row.revenueMillions := by
  have h := missing_gdp_negligible sampleInput jpnSample Seg.APAC (by decide) (by decide)
    (by decide) (Or.inl (by decide))
  exact ⟨by decide, h.1, h.2.2⟩

/-- C7: of two same-segment countries with identical positive GDP,
identical resolved indicators and identical hub and office status, where
exactly the first is in the near-zero set, the first scores exactly 0.01
times the second and receives a strictly smaller revenue allocation. -/
theorem near_zero_comparison (inp : Input) (c1 c2 : TaxCountry) (seg : Seg)
    (g1 g2 : ℚ × ℚ)
    (hnd : ((countriesOf inp).map (fun x => x.iso3)).Nodup)
    (hc1 : c1 ∈ countriesOf inp) (hc2 : c2 ∈ countriesOf inp)
    (hs1 : c1.seg = some seg) (hs2 : c2.seg = some seg)
    (hg1 : SMap.get (latestByIso3 inp.gdpRows) c1.iso3 = some g1)
    (hg2 : SMap.get (latestByIso3 inp.gdpRows) c2.iso3 = some g2)
    (hgeq : g1.2 = g2.2) (hgpos : 0 < g1.2)
    (hmp : mpOf inp c1 seg = mpOf inp c2 seg)
    (hcp : cpOf inp c1 seg = cpOf inp c2 seg)
    (hgp : gpOf inp c1 seg = gpOf inp c2 seg)
    (hnp : npOf inp c1 seg = npOf inp c2 seg)
    (hhub : SMap.get HUB_MULT c1.iso3 = SMap.get HUB_MULT c2.iso3)
    (hoff : OFFICE_COUNTRIES.contains c1.iso3 = OFFICE_COUNTRIES.contains c2.iso3)
    (hz1 : NEAR_ZERO.contains c1.iso3 = true)
    (hz2 : NEAR_ZERO.contains c2.iso3 = false) :
    scoreOf inp c1 seg = ((NEAR_ZERO_MULT : ℚ) : ℝ) * scoreOf inp c2 seg ∧
    ∃ r1 ∈ allocationsOf inp, ∃ r2 ∈ allocationsOf inp,
      r1.iso3 = c1.iso3 ∧ r2.iso3 = c2.iso3 ∧
      r1.revenueMillions < r2.revenueMillions := by
  have hf1 := scoreOf_eq_formula inp c1 seg g1.2 (by rw [hg1]; rfl) hgpos
  have hf2 := scoreOf_eq_formula inp c2 seg g2.2 (by rw [hg2]; rfl) (hgeq ▸ hgpos)
  have hscore : scoreOf inp c1 seg = ((NEAR_ZERO_MULT : ℚ) : ℝ) * scoreOf inp c2 seg := by
    have hz1e : (if NEAR_ZERO.contains c1.iso3 then ((NEAR_ZERO_MULT : ℚ) : ℝ) else 1) =
        ((NEAR_ZERO_MULT : ℚ) : ℝ) := by
      rw [hz1]
      simp
    have hz2e : (if NEAR_ZERO.contains c2.iso3 then ((NEAR_ZERO_MULT : ℚ) : ℝ) else 1) =
        (1 : ℝ) := by
      rw [hz2]
      simp
    rw [hf1, hf2, hz1e, hz2e, hgeq, hmp, hcp, hgp, hnp, hhub, hoff]
    ring
  refine ⟨hscore, allocRowOf inp seg c1, allocRowOf_mem inp seg c1 hc1 hs1,
    allocRowOf inp seg c2, allocRowOf_mem inp seg c2 hc2 hs2, rfl, rfl, ?_⟩
  rw [allocRowOf_revenue_eq inp seg c1 hnd hc1 hs1,
    allocRowOf_revenue_eq inp seg c2 hnd hc2 hs2]
  have hS := sumValues_scoresOf_pos inp seg hnd ⟨c1, hc1, hs1⟩
  have hT : (0 : ℝ) < ((SEGMENT_REVENUE_USD_M seg : ℚ) : ℝ) := by
    exact_mod_cast anchor_pos seg
  have h2pos := scoreOf_pos inp c2 seg
  have hlt : scoreOf inp c1 seg < scoreOf inp c2 seg := by
    rw [hscore]
    have hm : ((NEAR_ZERO_MULT : ℚ) : ℝ) < 1 := by norm_num [NEAR_ZERO_MULT]
    nlinarith
  have hdiv : scoreOf inp c1 seg / sumValues (scoresOf inp seg) <
      scoreOf inp c2 seg / sumValues (scoresOf inp seg) :=
    div_lt_div_of_pos_right hlt hS
  exact mul_lt_mul_of_pos_left hdiv hT

/-- Witness for C7: Russia (near-zero) versus Albania in the sample input;
both are EMEA with identical GDP and identical resolved indicators. -/
theorem near_zero_comparison_witness :
    NEAR_ZERO.contains "RUS" = true ∧ NEAR_ZERO.contains "ALB" = false ∧
    (scoreOf sampleInput rusSample Seg.EMEA =
        ((NEAR_ZERO_MULT : ℚ) : ℝ) * scoreOf sampleInput albSample Seg.EMEA ∧
      ∃ r1 ∈ allocationsOf sampleInput, ∃ r2 ∈ allocationsOf sampleInput,
        r1.iso3 = "RUS" ∧ r2.iso3 = "ALB" ∧
        r1.revenueMillions < r2.revenueMillions) :=
  ⟨by decide, by decide,
    near_zero_comparison sampleInput rusSample albSample Seg.EMEA (2020, 50) (2020, 50)
      (by decide) (by decide) (by decide) (by decide) (by decide) (by decide) (by decide)
      (by decide) (by decide) (by decide) (by decide) (by decide) (by decide) (by decide)
      (by decide) (by decide) (by decide)⟩

/-! ### Lemmas about the output assembly -/

theorem entries_pred_foldl_set {α β : Type} (P : String → α → Prop) (key : β → String)
    (f : β → α) (l : List β) (m : SMap α) (hm : ∀ p ∈ m, P p.1 p.2)
    (hf : ∀ b ∈ l, P (key b) (f b)) :
    ∀ p ∈ l.foldl (fun acc b => SMap.set acc (key b) (f b)) m, P p.1 p.2 := by
  induction l generalizing m with
  | nil => exact hm
  | cons b t ih =>
    rw [List.foldl_cons]
    exact ih _ (set_entry_pred P m (key b) (f b) hm (hf b (List.mem_cons_self _ _)))
      (fun b2 hb2 => hf b2 (List.mem_cons_of_mem _ hb2))

theorem entries_pred_foldl_condSet {α β : Type} (P : String → α → Prop) (key : β → String)
    (z : β → α) (l : List β) (m : SMap α) (hm : ∀ p ∈ m, P p.1 p.2)
    (hf : ∀ b ∈ l, P (key b) (z b)) :
    ∀ p ∈ l.foldl
        (fun acc b =>
          if (SMap.get acc (key b)).isSome then acc else SMap.set acc (key b) (z b)) m,
      P p.1 p.2 := by
  induction l generalizing m with
  | nil => exact hm
  | cons b t ih =>
    rw [List.foldl_cons]
    by_cases hs : (SMap.get m (key b)).isSome
    · rw [if_pos hs]
      exact ih _ hm (fun b2 hb2 => hf b2 (List.mem_cons_of_mem _ hb2))
    · rw [if_neg hs]
      exact ih _ (set_entry_pred P m (key b) (z b) hm (hf b (List.mem_cons_self _ _)))
        (fun b2 hb2 => hf b2 (List.mem_cons_of_mem _ hb2))

theorem alloc_mem_iso3 (inp : Input) (i : String)
    (h : i ∈ (allocationsOf inp).map (fun r => r.iso3)) :
    ∃ c ∈ countriesOf inp, c.iso3 = i ∧ ∃ seg, c.seg = some seg := by
  obtain ⟨r, hr, hri⟩ := List.mem_map.1 h
  unfold allocationsOf at hr
  rw [List.mem_flatMap] at hr
  obtain ⟨seg, _, hmem⟩ := hr
  obtain ⟨c, hcmem, hrc⟩ := List.mem_map.1 hmem
  have hc := List.mem_filter.1 hcmem
  refine ⟨c, hc.1, ?_, seg, by simpa using hc.2⟩
  rw [← hri, ← hrc]
  rfl

theorem mem_alloc_iso3 (inp : Input) (c : TaxCountry) (seg : Seg)
    (hc : c ∈ countriesOf inp) (hseg : c.seg = some seg) :
    c.iso3 ∈ (allocationsOf inp).map (fun r => r.iso3) :=
  List.mem_map.2 ⟨allocRowOf inp seg c, allocRowOf_mem inp seg c hc hseg, rfl⟩

theorem keys_pass1_iff (inp : Input) (k : String) :
    k ∈ SMap.keys (countryDetailsPass1 inp) ↔
      k ∈ (allocationsOf inp).map (fun r => r.iso3) := by
  unfold countryDetailsPass1
  rw [mem_keys_foldl_set]
  simp [SMap.keys]

theorem nodup_keys_pass1 (inp : Input) : (SMap.keys (countryDetailsPass1 inp)).Nodup := by
  unfold countryDetailsPass1
  exact nodup_keys_foldl_set _ _ _ _ (by simp [SMap.keys])

theorem keys_detailsMap_iff (inp : Input) (k : String) :
    k ∈ SMap.keys (countryDetailsMapOf inp) ↔
      k ∈ SMap.keys (countryDetailsPass1 inp) ∨
        k ∈ (countriesOf inp).map (fun c => c.iso3) := by
  unfold countryDetailsMapOf
  exact mem_keys_foldl_condSet (fun c => c.iso3) (zeroDetail inp) _ _ k

theorem nodup_keys_detailsMap (inp : Input) :
    (SMap.keys (countryDetailsMapOf inp)).Nodup := by
  unfold countryDetailsMapOf
  exact nodup_keys_foldl_condSet _ _ _ _ (nodup_keys_pass1 inp)

theorem detailsMap_entry_iso3 (inp : Input) :
    ∀ p ∈ countryDetailsMapOf inp, p.2.iso3 = p.1 := by
  unfold countryDetailsMapOf countryDetailsPass1
  refine entries_pred_foldl_condSet (fun k d => d.iso3 = k) (fun c => c.iso3)
    (zeroDetail inp) _ _ ?_ ?_
  · refine entries_pred_foldl_set (fun k d => d.iso3 = k) (fun r => r.iso3)
      (detailOfRow inp) _ _ ?_ ?_
    · intro p hp
      simp at hp
    · intro r _
      rfl
  · intro c _
    rfl

theorem details_iso3_eq_keys (inp : Input) :
    (countryDetailsOf inp).map (fun d => d.iso3) = SMap.keys (countryDetailsMapOf inp) := by
  unfold countryDetailsOf
  unfold SMap.values SMap.keys
  rw [List.map_map]
  exact List.map_congr_left (fun p hp => detailsMap_entry_iso3 inp p hp)

theorem details_get_nullseg (inp : Input) (c0 : TaxCountry)
    (hnd : ((countriesOf inp).map (fun x => x.iso3)).Nodup)
    (hc : c0 ∈ countriesOf inp) (hseg : c0.seg = none) :
    ∃ c1, SMap.get (countryDetailsMapOf inp) c0.iso3 = some (zeroDetail inp c1) := by
  unfold countryDetailsMapOf
  rw [get_foldl_condSet]
  have hp1 : SMap.get (countryDetailsPass1 inp) c0.iso3 = none := by
    rw [SMap.get_eq_none_iff]
    intro hk
    obtain ⟨c, hcm, hiso, seg, hsome⟩ :=
      alloc_mem_iso3 inp c0.iso3 ((keys_pass1_iff inp _).1 hk)
    have hcc : c = c0 := List.inj_on_of_nodup_map hnd hcm hc hiso
    rw [hcc, hseg] at hsome
    exact Option.noConfusion hsome
  rw [hp1]
  have hfind : (((countriesOf inp).find? (fun c => c.iso3 == c0.iso3))).isSome := by
    rw [List.find?_isSome]
    exact ⟨c0, hc, by simp⟩
  obtain ⟨c1, hc1⟩ := Option.isSome_iff_exists.1 hfind
  exact ⟨c1, by rw [hc1]; rfl⟩

/-- C2: with unique iso3 codes in the taxonomy, the output table
`countryDetails` has exactly one entry per taxonomy country: its iso3 list
has no duplicates, its membership coincides with the taxonomy's, and a
country with no segment still appears, with zero revenue and zero share. -/
theorem details_exactly_once (inp : Input)
    (hnd : ((countriesOf inp).map (fun x => x.iso3)).Nodup) :
    ((countryDetailsOf inp).map (fun d => d.iso3)).Nodup ∧
    (∀ i : String, i ∈ (countryDetailsOf inp).map (fun d => d.iso3) ↔
      i ∈ (countriesOf inp).map (fun c => c.iso3)) ∧
    (∀ c ∈ countriesOf inp, c.seg = none →
      ∀ d ∈ countryDetailsOf inp, d.iso3 = c.iso3 →
        d.revenueMillions = 0 ∧ d.share = 0) := by
  refine ⟨?_, ?_, ?_⟩
  · rw [details_iso3_eq_keys]
    exact nodup_keys_detailsMap inp
  · intro i
    rw [details_iso3_eq_keys, keys_detailsMap_iff, keys_pass1_iff]
    constructor
    · rintro (h | h)
      · obtain ⟨c, hcm, hiso, _⟩ := alloc_mem_iso3 inp i h
        exact List.mem_map.2 ⟨c, hcm, hiso⟩
      · exact h
    · intro h
      exact Or.inr h
  · intro c hc hseg d hd hdi
    obtain ⟨p, hp, hpd⟩ := List.mem_map.1 hd
    have hkey : p.1 = c.iso3 := by
      rw [← detailsMap_entry_iso3 inp p hp, hpd, hdi]
    have hpm : (c.iso3, d) ∈ countryDetailsMapOf inp := by
      have : p = (c.iso3, d) := by
        cases p
        simp_all
      rw [← this]
      exact hp
    have hget : SMap.get (countryDetailsMapOf inp) c.iso3 = some d :=
      SMap.get_of_mem_nodup _ _ _ (nodup_keys_detailsMap inp) hpm
    obtain ⟨c1, hz⟩ := details_get_nullseg inp c hnd hc hseg
    rw [hget] at hz
    have hdz : d = zeroDetail inp c1 := Option.some_injective _ hz
    rw [hdz]
    exact ⟨rfl, rfl⟩

/-- Witness for C2: the sample taxonomy has unique iso3 codes (including
the segment-less Atlantis row), and the output iso3 list has no
duplicates. -/
theorem details_exactly_once_witness :
    ((countriesOf sampleInput).map (fun x => x.iso3)).Nodup ∧
    ((countryDetailsOf sampleInput).map (fun d => d.iso3)).Nodup :=
  ⟨by decide, (details_exactly_once sampleInput (by decide)).1⟩

end GeoExposure

